import Mathlib

/-!
Verification of the Face-Studio image-processing and face-detection pipeline
(`script.js`) against its natural-language specification.

Modelling conventions (shallow embedding):
* JavaScript numbers are modelled as exact rationals (`ℚ`); the float constants
  0.299, 0.587, 0.3 … are taken at their decimal values.
* A p5 graphics buffer (`Raster`) is a width × height grid of RGBA values; its
  `pixels` array is accessed through the function `pix x y`.
* `Math.round x` is `⌊x + 1/2⌋` (JS rounds halves toward +∞).
* The JS remainder `a % b` truncates the quotient toward zero.
* Allocation failure of `safeCreateGraphics` (it returns `null`) is modelled by
  a boolean allocation oracle passed to the operations that call it.
* The p5 `filter(BLUR, r)` primitive is external to the repository; operations
  that delegate to it are parametrised by an arbitrary primitive `blurPrim`.
-/

namespace FaceStudio

/-- JS `Math.round`: round to nearest, halves toward +∞. -/
def jsRound (q : ℚ) : ℤ := ⌊q + 1/2⌋

/-- Truncation toward zero, as used by the JS `%` operator. -/
def qtrunc (q : ℚ) : ℤ := if 0 ≤ q then ⌊q⌋ else -⌊-q⌋

/-- JS remainder `a % b` (sign of the dividend, quotient truncated to zero). -/
def jsRem (a b : ℚ) : ℚ := a - b * (qtrunc (a / b) : ℚ)

theorem jsRound_natCast (n : ℕ) : jsRound (n : ℚ) = (n : ℤ) := by
  unfold jsRound
  rw [Int.floor_eq_iff]
  constructor <;> push_cast <;> linarith

theorem abs_jsRound_sub_le (q : ℚ) : |(jsRound q : ℚ) - q| ≤ 1/2 := by
  unfold jsRound
  have h1 := Int.floor_le (q + 1/2)
  have h2 := Int.lt_floor_add_one (q + 1/2)
  rw [abs_le]
  constructor <;> linarith

theorem jsRound_nonneg {q : ℚ} (h : 0 ≤ q) : 0 ≤ jsRound q := by
  unfold jsRound
  have : (0 : ℤ) ≤ ⌊(0 : ℚ) + 1/2⌋ := by norm_num
  exact le_trans this (Int.floor_le_floor (by linarith))

theorem jsRound_le_of_le {q c : ℚ} (hc : q ≤ c) (hi : ∃ n : ℤ, (n : ℚ) = c) :
    (jsRound q : ℚ) ≤ c := by
  obtain ⟨n, rfl⟩ := hi
  unfold jsRound
  have : ⌊q + 1/2⌋ ≤ n := by
    rw [Int.floor_le_iff]
    linarith
  exact_mod_cast this

/-- For `|x| < 6` the JS expression `x % 6` is `x` itself. -/
theorem jsRem_six_self {x : ℚ} (h : |x| < 6) : jsRem x 6 = x := by
  rw [abs_lt] at h
  unfold jsRem qtrunc
  rcases le_or_lt 0 (x / 6) with h6 | h6
  · have hz : ⌊x / 6⌋ = 0 := by
      rw [show (0 : ℤ) = ((0 : ℕ) : ℤ) from rfl, Int.floor_eq_iff]
      constructor <;> push_cast <;> linarith
    rw [if_pos h6, hz]
    push_cast; ring
  · rw [if_neg (not_le.mpr h6)]
    have hz : ⌊-(x / 6)⌋ = 0 := by
      rw [show (0 : ℤ) = ((0 : ℕ) : ℤ) from rfl, Int.floor_eq_iff]
      constructor <;> push_cast <;> linarith
    rw [hz]
    push_cast; ring

/-- One RGBA pixel; channel values are JS numbers (`ℚ`). -/
structure RGBA where
  r : ℚ
  g : ℚ
  b : ℚ
  a : ℚ
  deriving DecidableEq, Repr

/-- A p5 graphics buffer: fixed dimensions and a pixel grid. -/
structure Raster where
  width : ℕ
  height : ℕ
  pix : ℕ → ℕ → RGBA

/-- Frame size owned by `ImageProcessor` (`this.width = 160`). -/
def frameWidth : ℕ := 160

/-- Frame size owned by `ImageProcessor` (`this.height = 120`). -/
def frameHeight : ℕ := 120

/-- `ImageProcessor.rgbToHsv` (script.js:125-147): normalize to `[0,1]`, hexagonal
formula, hue rounded to integer degrees and wrapped into `[0,360)`, `s`,`v`
rescaled to `[0,255]` and rounded. Returns `(h, s, v)`. -/
def rgbToHsv (r g b : ℚ) : ℤ × ℤ × ℤ :=
  let r1 := r / 255
  let g1 := g / 255
  let b1 := b / 255
  let mx := max r1 (max g1 b1)
  let mn := min r1 (min g1 b1)
  let diff := mx - mn
  let h0 : ℚ :=
    if diff = 0 then 0
    else if mx = r1 then jsRem ((g1 - b1) / diff) 6
    else if mx = g1 then (b1 - r1) / diff + 2
    else (r1 - g1) / diff + 4
  let h1 := jsRound (h0 * 60)
  let h := if h1 < 0 then h1 + 360 else h1
  let s : ℚ := if mx = 0 then 0 else diff / mx
  (h, jsRound (s * 255), jsRound (mx * 255))

/-- Channel access `pixels[i + channelIndex]` for channel index 0/1/2/3. -/
def channelAt (p : RGBA) (c : ℕ) : ℚ :=
  match c with
  | 0 => p.r
  | 1 => p.g
  | 2 => p.b
  | _ => p.a

/-- `ImageProcessor.createGrayscaleWithBrightness` (script.js:188-214), content of
the output buffer on the successful path: per pixel, luminance by the standard
formula, brightened by 20 %, clamped at 255, written to all three channels with
alpha 255. -/
def createGrayscaleWithBrightness (img : Raster) : Raster :=
  { width := img.width, height := img.height,
    pix := fun x y =>
      let gray := 299/1000 * (img.pix x y).r + 587/1000 * (img.pix x y).g
        + 114/1000 * (img.pix x y).b
      let brightenedGray := gray * (12/10)
      let clampedGray := min 255 brightenedGray
      ⟨clampedGray, clampedGray, clampedGray, 255⟩ }

/-- `createGrayscaleWithBrightness` including its allocation test: when
`safeCreateGraphics` fails the function returns `null` (`none`). -/
def createGrayscaleWithBrightnessA (alloc : Bool) (img : Raster) : Option Raster :=
  if alloc then some (createGrayscaleWithBrightness img) else none

/-- `ImageProcessor.applyChannelThreshold` (script.js:261-276): binarize on
`pixels[i + channelIndex] > threshold`. -/
def applyChannelThreshold (img : Raster) (threshold : ℚ) (channelIndex : ℕ) : Raster :=
  { width := img.width, height := img.height,
    pix := fun x y =>
      let value : ℚ := if channelAt (img.pix x y) channelIndex > threshold then 255 else 0
      ⟨value, value, value, 255⟩ }

/-- `ImageProcessor.convertToHSV` (script.js:279-295): per pixel `rgbToHsv`,
hue packed as `(h/360)*255`. -/
def convertToHSV (img : Raster) : Raster :=
  { width := img.width, height := img.height,
    pix := fun x y =>
      let p := img.pix x y
      let hsv := rgbToHsv p.r p.g p.b
      ⟨((hsv.1 : ℚ) / 360) * 255, (hsv.2.1 : ℚ), (hsv.2.2 : ℚ), 255⟩ }

/-- In-bounds x-coordinates of the pixelation block starting at `x0`
(the loop `for bx = 0; bx < blockSize && x0 + bx < img.width`). -/
def blockXs (w x0 : ℕ) : List ℕ := (List.range (min (x0 + 12) w - x0)).map (x0 + ·)

/-- In-bounds pixel coordinates of the 12 × 12 pixelation block at `(x0, y0)`. -/
def blockPts (img : Raster) (x0 y0 : ℕ) : List (ℕ × ℕ) :=
  (blockXs img.height y0).flatMap fun yy => (blockXs img.width x0).map fun xx => (xx, yy)

/-- Average channel-0 intensity of the block at `(x0, y0)`
(`Math.round(totalIntensity / pixelCount)`). -/
def blockAvg (img : Raster) (x0 y0 : ℕ) : ℚ :=
  (jsRound ((((blockPts img x0 y0).map fun p => (img.pix p.1 p.2).r).sum)
    / ((blockPts img x0 y0).length : ℚ)) : ℚ)

/-- `ImageProcessor.pixelateImage` (script.js:337-390), successful-allocation
content. The source loops over block origins (multiples of 12) and paints every
in-bounds pixel of a block with the block's average channel-0 intensity; each
output pixel is written exactly once, by the unique block containing it, so the
output is given per pixel by the average of its block. -/
def pixelateImage (img : Raster) : Raster :=
  { width := img.width, height := img.height,
    pix := fun x y =>
      let avg := blockAvg img (12 * (x / 12)) (12 * (y / 12))
      ⟨avg, avg, avg, 255⟩ }

/-- `pixelateImage` including its allocation test: on `safeCreateGraphics`
failure the source returns the input raster itself (`return img`). -/
def pixelateImageA (alloc : Bool) (img : Raster) : Raster :=
  if alloc then pixelateImage img else img

/-- `ImageProcessor.blurImage` (script.js:393-405): draws the input into a fresh
buffer and applies the external p5 `filter(BLUR, radius)` primitive (`blurPrim`);
on allocation failure the source returns the input raster itself. -/
def blurImage (blurPrim : Raster → ℚ → Raster) (alloc : Bool) (img : Raster)
    (radius : ℚ) : Raster :=
  if alloc then blurPrim img radius else img

/-- `ImageProcessor.extractColorChannels` (script.js:216-258): three new
rasters, each keeping one channel of the input and zeroing the other two. -/
def extractColorChannels (img : Raster) : Raster × Raster × Raster :=
  ({ width := img.width, height := img.height,
     pix := fun x y => ⟨(img.pix x y).r, 0, 0, 255⟩ },
   { width := img.width, height := img.height,
     pix := fun x y => ⟨0, (img.pix x y).g, 0, 255⟩ },
   { width := img.width, height := img.height,
     pix := fun x y => ⟨0, 0, (img.pix x y).b, 255⟩ })

/-- `ImageProcessor.rgbToLab` (script.js:150-186). `Math.pow` with fractional
exponents (the 2.4 gamma and the 1/3 cube root) is an external primitive,
passed as `powFn`. -/
def rgbToLab (powFn : ℚ → ℚ → ℚ) (r g b : ℚ) : ℚ × ℚ × ℚ :=
  let r1 := r / 255
  let g1 := g / 255
  let b1 := b / 255
  let r2 := if r1 > 4045/100000 then powFn ((r1 + 55/1000) / (1055/1000)) (24/10)
    else r1 / (1292/100)
  let g2 := if g1 > 4045/100000 then powFn ((g1 + 55/1000) / (1055/1000)) (24/10)
    else g1 / (1292/100)
  let b2 := if b1 > 4045/100000 then powFn ((b1 + 55/1000) / (1055/1000)) (24/10)
    else b1 / (1292/100)
  let x := r2 * (4124564/10000000) + g2 * (3575761/10000000) + b2 * (1804375/10000000)
  let y := r2 * (2126729/10000000) + g2 * (7151522/10000000) + b2 * (721750/10000000)
  let z := r2 * (193339/10000000) + g2 * (1191920/10000000) + b2 * (9503041/10000000)
  let x1 := x / (95047/100000)
  let y1 := y / 1
  let z1 := z / (108883/100000)
  let fx := if x1 > 8856/1000000 then powFn x1 (1/3) else 7787/1000 * x1 + 16/116
  let fy := if y1 > 8856/1000000 then powFn y1 (1/3) else 7787/1000 * y1 + 16/116
  let fz := if z1 > 8856/1000000 then powFn z1 (1/3) else 7787/1000 * z1 + 16/116
  let L := 116 * fy - 16
  let a := 500 * (fx - fy)
  let bLab := 200 * (fy - fz)
  (max 0 (min 255 (L / 100 * 255)), max 0 (min 255 ((a + 128) * 255 / 256)),
   max 0 (min 255 ((bLab + 128) * 255 / 256)))

/-- `ImageProcessor.convertToLab` (script.js:298-315): per pixel `rgbToLab`,
each component clamped into [0, 255] once more. -/
def convertToLab (powFn : ℚ → ℚ → ℚ) (img : Raster) : Raster :=
  { width := img.width, height := img.height,
    pix := fun x y =>
      let p := img.pix x y
      let lab := rgbToLab powFn p.r p.g p.b
      ⟨max 0 (min 255 lab.1), max 0 (min 255 lab.2.1), max 0 (min 255 lab.2.2), 255⟩ }

/-- `ImageProcessor.applyColorSpaceThreshold` (script.js:317-335): mean
intensity thresholding to black/white. -/
def applyColorSpaceThreshold (img : Raster) (threshold : ℚ) : Raster :=
  { width := img.width, height := img.height,
    pix := fun x y =>
      let p := img.pix x y
      let intensity := (p.r + p.g + p.b) / 3
      let value : ℚ := if intensity > threshold then 255 else 0
      ⟨value, value, value, 255⟩ }

/-- `FaceProcessor.processFace` (script.js:431-478): switch on the filter id.
The `try`/`catch` around the switch returns the input on an exception; the only
exception path reachable in this model is filter 4 with a failed grayscale
allocation, where the source calls `pixelateImage(null)` which throws on
`null.width` and the catch returns `faceImg`. -/
def processFace (blurPrim : Raster → ℚ → Raster)
    (allocGray allocBlur allocPix : Bool) (faceImg : Raster)
    (filterType : ℤ) : Option Raster :=
  if filterType = 1 then
    createGrayscaleWithBrightnessA allocGray faceImg
  else if filterType = 2 then
    some (blurImage blurPrim allocBlur faceImg 25)
  else if filterType = 3 then
    some (convertToHSV faceImg)
  else if filterType = 4 then
    match createGrayscaleWithBrightnessA allocGray faceImg with
    | none => some faceImg
    | some grayscaleFace => some (pixelateImageA allocPix grayscaleFace)
  else
    some faceImg

theorem list_sum_map_const {α : Type} (l : List α) (f : α → ℚ) (c : ℚ)
    (h : ∀ a ∈ l, f a = c) : (l.map f).sum = l.length * c := by
  induction l with
  | nil => simp
  | cons a l ih =>
    simp only [List.map_cons, List.sum_cons, List.length_cons]
    rw [h a (List.mem_cons_self a l), ih fun b hb => h b (List.mem_cons_of_mem a hb)]
    push_cast
    ring

theorem mem_blockXs {w x0 x : ℕ} (hx : x0 ≤ x) (hw : x < w) (hb : x < x0 + 12) :
    x ∈ blockXs w x0 := by
  unfold blockXs
  rw [List.mem_map]
  exact ⟨x - x0, by rw [List.mem_range]; omega, by omega⟩

theorem mem_blockXs_bound {w x0 x : ℕ} (hx : x ∈ blockXs w x0) : x < w ∧ x0 ≤ x := by
  unfold blockXs at hx
  rw [List.mem_map] at hx
  obtain ⟨i, hi, rfl⟩ := hx
  rw [List.mem_range] at hi
  omega

/-- C4: grayscale-with-brightness postcondition: every output channel equals
`min 255 (1.2 * (0.299 R + 0.587 G + 0.114 B))` of the corresponding input
pixel, alpha is 255, and the value lies in `[0, 255]`. -/
theorem createGrayscaleWithBrightness_spec (img : Raster) (x y : ℕ)
    (hx : x < img.width) (hy : y < img.height)
    (h0r : 0 ≤ (img.pix x y).r) (h0g : 0 ≤ (img.pix x y).g)
    (h0b : 0 ≤ (img.pix x y).b) :
    ((createGrayscaleWithBrightness img).pix x y).r =
      min 255 ((12/10) * (299/1000 * (img.pix x y).r + 587/1000 * (img.pix x y).g
        + 114/1000 * (img.pix x y).b)) ∧
    ((createGrayscaleWithBrightness img).pix x y).g =
      ((createGrayscaleWithBrightness img).pix x y).r ∧
    ((createGrayscaleWithBrightness img).pix x y).b =
      ((createGrayscaleWithBrightness img).pix x y).r ∧
    ((createGrayscaleWithBrightness img).pix x y).a = 255 ∧
    0 ≤ ((createGrayscaleWithBrightness img).pix x y).r ∧
    ((createGrayscaleWithBrightness img).pix x y).r ≤ 255 := by
  refine ⟨?_, rfl, rfl, rfl, ?_, ?_⟩
  · show min 255 ((299/1000 * (img.pix x y).r + 587/1000 * (img.pix x y).g
        + 114/1000 * (img.pix x y).b) * (12/10)) = _
    rw [mul_comm]
  · show (0 : ℚ) ≤ min 255 ((299/1000 * (img.pix x y).r + 587/1000 * (img.pix x y).g
        + 114/1000 * (img.pix x y).b) * (12/10))
    refine le_min (by norm_num) (by positivity)
  · show min 255 ((299/1000 * (img.pix x y).r + 587/1000 * (img.pix x y).g
        + 114/1000 * (img.pix x y).b) * (12/10)) ≤ 255
    exact min_le_left _ _

/-- C4 witness: the all-white input pixel (255,255,255) maps to (255,255,255):
1.2 × 255 exceeds 255 and is clamped. -/
theorem createGrayscaleWithBrightness_spec_witness :
    ((createGrayscaleWithBrightness ⟨1, 1, fun _ _ => ⟨255, 255, 255, 255⟩⟩).pix 0 0).r
      = 255 := by
  have h := createGrayscaleWithBrightness_spec ⟨1, 1, fun _ _ => ⟨255, 255, 255, 255⟩⟩
    0 0 (by decide) (by decide) (by norm_num) (by norm_num) (by norm_num)
  rw [h.1]
  norm_num

/-- C7: pixelating a raster all of whose pixels are the constant gray color
`(C, C, C, 255)` returns a raster equal to the input: every in-bounds pixel is
still `(C, C, C, 255)`. -/
theorem pixelateImage_const (C : ℕ) (img : Raster)
    (h : ∀ x < img.width, ∀ y < img.height, img.pix x y = ⟨(C : ℚ), C, C, 255⟩) :
    ∀ x < img.width, ∀ y < img.height, (pixelateImage img).pix x y = ⟨(C : ℚ), C, C, 255⟩ := by
  intro x hx y hy
  have havg : blockAvg img (12 * (x / 12)) (12 * (y / 12)) = (C : ℚ) := by
    unfold blockAvg
    set pts := blockPts img (12 * (x / 12)) (12 * (y / 12)) with hpts
    have hmem : ∀ p ∈ pts, (img.pix p.1 p.2).r = (C : ℚ) := by
      intro p hp
      rw [hpts, blockPts, List.mem_flatMap] at hp
      obtain ⟨yy, hyy, hp⟩ := hp
      rw [List.mem_map] at hp
      obtain ⟨xx, hxx, rfl⟩ := hp
      have h1 := mem_blockXs_bound hyy
      have h2 := mem_blockXs_bound hxx
      rw [h xx h2.1 yy h1.1]
    have hxin : x ∈ blockXs img.width (12 * (x / 12)) :=
      mem_blockXs (by omega) hx (by omega)
    have hyin : y ∈ blockXs img.height (12 * (y / 12)) :=
      mem_blockXs (by omega) hy (by omega)
    have hne : pts ≠ [] := by
      intro hnil
      have : (x, y) ∈ pts := by
        rw [hpts, blockPts, List.mem_flatMap]
        exact ⟨y, hyin, List.mem_map.mpr ⟨x, hxin, rfl⟩⟩
      rw [hnil] at this
      exact List.not_mem_nil _ this
    have hlen : (0 : ℚ) < pts.length := by
      have := List.length_pos.mpr hne
      exact_mod_cast this
    rw [list_sum_map_const pts _ (C : ℚ) hmem]
    have hdiv : ((pts.length : ℚ) * C) / (pts.length : ℚ) = (C : ℚ) := by
      field_simp
    rw [hdiv, jsRound_natCast]
    norm_cast
  simp only [pixelateImage]
  rw [havg]

/-- C7 witness: a 2 × 2 raster of constant gray value 100 pixelates to itself. -/
theorem pixelateImage_const_witness :
    (pixelateImage ⟨2, 2, fun _ _ => ⟨100, 100, 100, 255⟩⟩).pix 1 1
      = ⟨(100 : ℚ), 100, 100, 255⟩ :=
  pixelateImage_const 100 ⟨2, 2, fun _ _ => ⟨100, 100, 100, 255⟩⟩
    (by intro x _ y _; norm_num) 1 (by decide) 1 (by decide)

/-- A small constant test raster used to instantiate theorems. -/
def testRaster : Raster := ⟨1, 1, fun _ _ => ⟨10, 20, 30, 255⟩⟩

/-- A trivial stand-in for the external blur primitive, used only to
instantiate universally quantified theorems at a concrete value. -/
def idBlur : Raster → ℚ → Raster := fun r _ => r

/-- C2 counterexample: with filter 1 (grayscale) and a failed output-raster
allocation, `processFace` returns `null` (`none`), not the unmodified input
sub-raster as the claim states. -/
theorem processFace_grayscale_alloc_failure :
    processFace idBlur false true true testRaster 1 = none := rfl

/-- C2 (amended): `processFace` is total (never raises past this boundary) and
on a transform failure behaves as follows: filters other than 1 always return a
raster; a failed blur allocation (filter 2) returns the unmodified input; a
failed grayscale allocation under filter 4 returns the unmodified input (via
the catch around `pixelateImage(null)`); a failed pixelation allocation under
filter 4 returns the grayscaled sub-raster; unknown filter ids return the
input; but filter 1 with a failed grayscale allocation returns `null` rather
than the input. -/
theorem processFace_failure_fallback (bp : Raster → ℚ → Raster)
    (aG aB aP : Bool) (img : Raster) (ft : ℤ) :
    (ft ≠ 1 → ∃ r, processFace bp aG aB aP img ft = some r) ∧
    (aG = false → processFace bp aG aB aP img 1 = none) ∧
    (aB = false → processFace bp aG aB aP img 2 = some img) ∧
    (aG = false → processFace bp aG aB aP img 4 = some img) ∧
    (aG = true → aP = false →
      processFace bp aG aB aP img 4 = some (createGrayscaleWithBrightness img)) ∧
    (ft ≠ 1 → ft ≠ 2 → ft ≠ 3 → ft ≠ 4 → processFace bp aG aB aP img ft = some img) := by
  refine ⟨?_, ?_, ?_, ?_, ?_, ?_⟩
  · intro h1
    by_cases h2 : ft = 2
    · subst h2; exact ⟨blurImage bp aB img 25, by simp [processFace]⟩
    by_cases h3 : ft = 3
    · subst h3; exact ⟨convertToHSV img, by simp [processFace]⟩
    by_cases h4 : ft = 4
    · subst h4
      cases aG <;> simp [processFace, createGrayscaleWithBrightnessA]
    · exact ⟨img, by simp [processFace, h1, h2, h3, h4]⟩
  · rintro rfl
    simp [processFace, createGrayscaleWithBrightnessA]
  · rintro rfl
    simp [processFace, blurImage]
  · rintro rfl
    simp [processFace, createGrayscaleWithBrightnessA]
  · rintro rfl rfl
    simp [processFace, createGrayscaleWithBrightnessA, pixelateImageA]
  · intro h1 h2 h3 h4
    simp [processFace, h1, h2, h3, h4]

/-- C2 witness: blur (filter 2) with a failed allocation returns the unmodified
input sub-raster. -/
theorem processFace_failure_fallback_witness :
    processFace idBlur true false true testRaster 2 = some testRaster :=
  (processFace_failure_fallback idBlur true false true testRaster 2).2.2.1 rfl

/-! Heap-level model for the allocation discipline (claim C6). A p5 graphics
object lives on a heap of rasters addressed by position; `createGraphics` and
`safeCreateGraphics` append a fresh raster at address `heap.length`
(`extractColorChannels` allocates three); the pixel loops of every transform
write only into the fresh raster(s) (the source never assigns to
`img.pixels`), so at heap level a transform appends its output content and
returns the fresh address — except that `pixelateImage` and `blurImage` return
the input address itself when allocation fails, and
`createGrayscaleWithBrightness` then returns `null`. -/

/-- Heap of p5 graphics buffers; a raster reference is an index. -/
abbrev Heap := List Raster

/-- Heap-level `createGrayscaleWithBrightness`: fresh output raster on success,
`null` on allocation failure. -/
def createGrayscaleWithBrightnessH (hp : Heap) (p : ℕ) (alloc : Bool) :
    Heap × Option ℕ :=
  match hp[p]? with
  | none => (hp, none)
  | some img =>
    if alloc then (hp ++ [createGrayscaleWithBrightness img], some hp.length)
    else (hp, none)

/-- Heap-level `pixelateImage`: fresh output raster on success, the input
raster itself (`return img`) on allocation failure. -/
def pixelateImageH (hp : Heap) (p : ℕ) (alloc : Bool) : Heap × Option ℕ :=
  match hp[p]? with
  | none => (hp, none)
  | some img =>
    if alloc then (hp ++ [pixelateImage img], some hp.length)
    else (hp, some p)

/-- Heap-level `applyChannelThreshold` (uses plain `createGraphics`, no
failure path in the source). -/
def applyChannelThresholdH (hp : Heap) (p : ℕ) (t : ℚ) (c : ℕ) : Heap × Option ℕ :=
  match hp[p]? with
  | none => (hp, none)
  | some img => (hp ++ [applyChannelThreshold img t c], some hp.length)

/-- Heap-level `extractColorChannels`: three fresh rasters (plain
`createGraphics`, no failure path in the source). -/
def extractColorChannelsH (hp : Heap) (p : ℕ) : Heap × Option (ℕ × ℕ × ℕ) :=
  match hp[p]? with
  | none => (hp, none)
  | some img =>
    (hp ++ [(extractColorChannels img).1, (extractColorChannels img).2.1,
      (extractColorChannels img).2.2],
     some (hp.length, hp.length + 1, hp.length + 2))

/-- Heap-level `convertToHSV` (plain `createGraphics`). -/
def convertToHSVH (hp : Heap) (p : ℕ) : Heap × Option ℕ :=
  match hp[p]? with
  | none => (hp, none)
  | some img => (hp ++ [convertToHSV img], some hp.length)

/-- Heap-level `convertToLab` (plain `createGraphics`). -/
def convertToLabH (powFn : ℚ → ℚ → ℚ) (hp : Heap) (p : ℕ) : Heap × Option ℕ :=
  match hp[p]? with
  | none => (hp, none)
  | some img => (hp ++ [convertToLab powFn img], some hp.length)

/-- Heap-level `applyColorSpaceThreshold` (plain `createGraphics`). -/
def applyColorSpaceThresholdH (hp : Heap) (p : ℕ) (t : ℚ) : Heap × Option ℕ :=
  match hp[p]? with
  | none => (hp, none)
  | some img => (hp ++ [applyColorSpaceThreshold img t], some hp.length)

/-- Heap-level `blurImage`: fresh output raster on success, the input raster
itself (`return img`) on allocation failure. -/
def blurImageH (blurPrim : Raster → ℚ → Raster) (hp : Heap) (p : ℕ)
    (alloc : Bool) (radius : ℚ) : Heap × Option ℕ :=
  match hp[p]? with
  | none => (hp, none)
  | some img =>
    if alloc then (hp ++ [blurPrim img radius], some hp.length)
    else (hp, some p)

/-- C6 counterexample: `pixelateImage` with a failed allocation returns the
input raster itself — same heap address, no new raster allocated — refuting
"the result is a newly allocated raster" for every call. -/
theorem pixelateImage_alloc_failure_not_fresh :
    (pixelateImageH [testRaster] 0 false).2 = some 0 ∧
    (pixelateImageH [testRaster] 0 false).1.length = 1 := ⟨rfl, rfl⟩

/-- C6 (amended): every `ImageProcessor` transform — grayscale, channel
extraction, channel and colorspace thresholding, HSV and Lab conversion,
pixelation, blur — leaves the pixel contents of the input raster unchanged;
on successful allocation each result is a newly allocated raster (a fresh
address, distinct from the input, holding the transformed content; channel
extraction allocates three); but on allocation failure `pixelateImage` and
`blurImage` return the input raster itself unmodified and
`createGrayscaleWithBrightness` returns `null`. -/
theorem transforms_preserve_input (blurPrim : Raster → ℚ → Raster)
    (powFn : ℚ → ℚ → ℚ) (hp : Heap) (p : ℕ) (alloc : Bool) (t : ℚ)
    (c : ℕ) (radius : ℚ) (img : Raster) (himg : hp[p]? = some img) :
    (createGrayscaleWithBrightnessH hp p alloc).1[p]? = some img ∧
    (pixelateImageH hp p alloc).1[p]? = some img ∧
    (applyChannelThresholdH hp p t c).1[p]? = some img ∧
    (extractColorChannelsH hp p).1[p]? = some img ∧
    (convertToHSVH hp p).1[p]? = some img ∧
    (convertToLabH powFn hp p).1[p]? = some img ∧
    (applyColorSpaceThresholdH hp p t).1[p]? = some img ∧
    (blurImageH blurPrim hp p alloc radius).1[p]? = some img ∧
    (alloc = true →
      (createGrayscaleWithBrightnessH hp p alloc).2 = some hp.length ∧
      hp.length ≠ p ∧
      (createGrayscaleWithBrightnessH hp p alloc).1[hp.length]? =
        some (createGrayscaleWithBrightness img)) ∧
    (alloc = true →
      (pixelateImageH hp p alloc).2 = some hp.length ∧
      hp.length ≠ p ∧
      (pixelateImageH hp p alloc).1[hp.length]? = some (pixelateImage img)) ∧
    ((applyChannelThresholdH hp p t c).2 = some hp.length ∧
      hp.length ≠ p ∧
      (applyChannelThresholdH hp p t c).1[hp.length]? =
        some (applyChannelThreshold img t c)) ∧
    ((extractColorChannelsH hp p).2 = some (hp.length, hp.length + 1, hp.length + 2) ∧
      hp.length ≠ p ∧
      (extractColorChannelsH hp p).1[hp.length]? = some (extractColorChannels img).1 ∧
      (extractColorChannelsH hp p).1[hp.length + 1]? =
        some (extractColorChannels img).2.1 ∧
      (extractColorChannelsH hp p).1[hp.length + 2]? =
        some (extractColorChannels img).2.2) ∧
    ((convertToHSVH hp p).2 = some hp.length ∧
      hp.length ≠ p ∧
      (convertToHSVH hp p).1[hp.length]? = some (convertToHSV img)) ∧
    ((convertToLabH powFn hp p).2 = some hp.length ∧
      hp.length ≠ p ∧
      (convertToLabH powFn hp p).1[hp.length]? = some (convertToLab powFn img)) ∧
    ((applyColorSpaceThresholdH hp p t).2 = some hp.length ∧
      hp.length ≠ p ∧
      (applyColorSpaceThresholdH hp p t).1[hp.length]? =
        some (applyColorSpaceThreshold img t)) ∧
    (alloc = true →
      (blurImageH blurPrim hp p alloc radius).2 = some hp.length ∧
      hp.length ≠ p ∧
      (blurImageH blurPrim hp p alloc radius).1[hp.length]? =
        some (blurPrim img radius)) ∧
    (alloc = false → pixelateImageH hp p alloc = (hp, some p)) ∧
    (alloc = false → blurImageH blurPrim hp p alloc radius = (hp, some p)) ∧
    (alloc = false → createGrayscaleWithBrightnessH hp p alloc = (hp, none)) := by
  have hlt : p < hp.length := by
    by_contra hge
    rw [List.getElem?_eq_none (le_of_not_lt hge)] at himg
    exact Option.noConfusion himg
  have happ : ∀ l : List Raster, (hp ++ l)[p]? = some img := fun l =>
    (List.getElem?_append_left hlt).trans himg
  have hfresh : ∀ r : Raster, (hp ++ [r])[hp.length]? = some r := fun r => by
    rw [List.getElem?_append_right (le_refl _)]
    simp
  have hfreshl : ∀ (l : List Raster) (k : ℕ), (hp ++ l)[hp.length + k]? = l[k]? := by
    intro l k
    rw [List.getElem?_append_right (Nat.le_add_right _ _)]
    congr 1
    omega
  refine ⟨?_, ?_, ?_, ?_, ?_, ?_, ?_, ?_, ?_, ?_, ?_, ?_, ?_, ?_, ?_, ?_, ?_, ?_, ?_⟩
  · cases alloc <;> simp [createGrayscaleWithBrightnessH, himg, happ]
  · cases alloc <;> simp [pixelateImageH, himg, happ]
  · simp [applyChannelThresholdH, himg, happ]
  · simp [extractColorChannelsH, himg, happ]
  · simp [convertToHSVH, himg, happ]
  · simp [convertToLabH, himg, happ]
  · simp [applyColorSpaceThresholdH, himg, happ]
  · cases alloc <;> simp [blurImageH, himg, happ]
  · rintro rfl
    exact ⟨by simp [createGrayscaleWithBrightnessH, himg], Nat.ne_of_gt hlt,
      by simp [createGrayscaleWithBrightnessH, himg, hfresh]⟩
  · rintro rfl
    exact ⟨by simp [pixelateImageH, himg], Nat.ne_of_gt hlt,
      by simp [pixelateImageH, himg, hfresh]⟩
  · exact ⟨by simp [applyChannelThresholdH, himg], Nat.ne_of_gt hlt,
      by simp [applyChannelThresholdH, himg, hfresh]⟩
  · refine ⟨by simp [extractColorChannelsH, himg], Nat.ne_of_gt hlt, ?_, ?_, ?_⟩
    · have h0 := hfreshl [(extractColorChannels img).1, (extractColorChannels img).2.1,
        (extractColorChannels img).2.2] 0
      simp only [extractColorChannelsH, himg]
      simpa using h0
    · have h1 := hfreshl [(extractColorChannels img).1, (extractColorChannels img).2.1,
        (extractColorChannels img).2.2] 1
      simp only [extractColorChannelsH, himg]
      simpa using h1
    · have h2 := hfreshl [(extractColorChannels img).1, (extractColorChannels img).2.1,
        (extractColorChannels img).2.2] 2
      simp only [extractColorChannelsH, himg]
      simpa using h2
  · exact ⟨by simp [convertToHSVH, himg], Nat.ne_of_gt hlt,
      by simp [convertToHSVH, himg, hfresh]⟩
  · exact ⟨by simp [convertToLabH, himg], Nat.ne_of_gt hlt,
      by simp [convertToLabH, himg, hfresh]⟩
  · exact ⟨by simp [applyColorSpaceThresholdH, himg], Nat.ne_of_gt hlt,
      by simp [applyColorSpaceThresholdH, himg, hfresh]⟩
  · rintro rfl
    exact ⟨by simp [blurImageH, himg], Nat.ne_of_gt hlt,
      by simp [blurImageH, himg, hfresh]⟩
  · rintro rfl
    simp [pixelateImageH, himg]
  · rintro rfl
    simp [blurImageH, himg]
  · rintro rfl
    simp [createGrayscaleWithBrightnessH, himg]

/-- C6 witness: on a one-raster heap with a successful allocation, pixelation,
channel extraction and blur leave the input raster in place and return fresh
addresses. -/
theorem transforms_preserve_input_witness :
    ([testRaster] : Heap)[0]? = some testRaster ∧
    (pixelateImageH [testRaster] 0 true).1[0]? = some testRaster ∧
    (pixelateImageH [testRaster] 0 true).2 = some 1 ∧
    (extractColorChannelsH [testRaster] 0).2 = some (1, 2, 3) ∧
    (blurImageH idBlur [testRaster] 0 true 8).2 = some 1 := by
  have h := transforms_preserve_input idBlur (fun x _ => x) [testRaster] 0 true
    128 0 8 testRaster rfl
  obtain ⟨-, h2, -, -, -, -, -, -, -, h10, -, h12, -, -, -, h16, -, -, -⟩ := h
  exact ⟨rfl, h2, (h10 rfl).1, h12.1, (h16 rfl).1⟩

/-- A face bounding box `{x, y, width, height}` in pixel coordinates. -/
structure Box where
  x : ℤ
  y : ℤ
  width : ℤ
  height : ℤ
  deriving DecidableEq, Repr

/-- `this.minFaceSize = 30`. -/
def minFaceSize : ℤ := 30

/-- `this.maxFaceSize = 100`. -/
def maxFaceSize : ℤ := 100

/-- `this.maxHistoryLength = 5`. -/
def maxHistoryLength : ℕ := 5

/-- `FaceProcessor.isValidFaceSize` (script.js:587-593); the `face &&`
truthiness test is handled by `Option` at the call sites. -/
def isValidFaceSize (face : Box) : Bool :=
  minFaceSize ≤ face.width && minFaceSize ≤ face.height &&
  face.width ≤ maxFaceSize && face.height ≤ maxFaceSize

/-- Mutable detector state of `FaceProcessor`. -/
structure FPState where
  lastKnownFacePosition : Option Box
  faceTrackingHistory : List Box
  deriving DecidableEq, Repr

/-- Constructor state: no last position, empty history. -/
def initialFPState : FPState := ⟨none, []⟩

/-- `FaceProcessor.updateFaceHistory` (script.js:859-868): a valid box is
pushed at the end of the history, the oldest entry is shifted off beyond 5,
and the box becomes `lastKnownFacePosition`; otherwise nothing changes. -/
def updateFaceHistory (s : FPState) (facePosition : Option Box) : FPState :=
  match facePosition with
  | none => s
  | some fp =>
    if isValidFaceSize fp then
      let h1 := s.faceTrackingHistory ++ [fp]
      let h2 := if h1.length > maxHistoryLength then h1.tail else h1
      ⟨some fp, h2⟩
    else s

/-- The subsequence of calls whose box passes `isValidFaceSize`. -/
def acceptedBoxes (calls : List (Option Box)) : List Box :=
  calls.filterMap fun c =>
    match c with
    | some b => if isValidFaceSize b then some b else none
    | none => none

theorem updateFaceHistory_step (acc : List Box) (b : Box)
    (hval : isValidFaceSize b = true) :
    updateFaceHistory ⟨acc.getLast?, acc.drop (acc.length - maxHistoryLength)⟩ (some b) =
      ⟨(acc ++ [b]).getLast?,
        (acc ++ [b]).drop ((acc ++ [b]).length - maxHistoryLength)⟩ := by
  simp only [updateFaceHistory, hval, if_true, maxHistoryLength]
  have hlb : (acc ++ [b]).length = acc.length + 1 := by
    simp only [List.length_append, List.length_cons, List.length_nil]
  have hdl : (List.drop (acc.length - 5) acc ++ [b]).length
      = acc.length - (acc.length - 5) + 1 := by
    simp only [List.length_append, List.length_drop, List.length_cons, List.length_nil]
  congr 1
  · exact (List.getLast?_concat _).symm
  · rcases le_or_lt acc.length 4 with hlen | hlen
    · have h5 : acc.length - 5 = 0 := by omega
      rw [if_neg (by rw [hdl]; omega)]
      rw [h5, List.drop_zero, hlb]
      have h5b : acc.length + 1 - 5 = 0 := by omega
      rw [h5b, List.drop_zero]
    · rw [if_pos (by rw [hdl]; omega)]
      have h4 : (acc ++ [b]).length - 5 = acc.length - 4 := by rw [hlb]; omega
      rw [h4, List.drop_append_of_le_length (by omega)]
      have hne : acc.drop (acc.length - 5) ≠ [] := by
        intro hnil
        have := congrArg List.length hnil
        rw [List.length_drop] at this
        simp only [List.length_nil] at this
        omega
      obtain ⟨hd, tl, hht⟩ := List.exists_cons_of_ne_nil hne
      have htl : tl = acc.drop (acc.length - 4) := by
        have h1 : acc.drop (acc.length - 5 + 1) = tl := by
          rw [← List.tail_drop, hht]
          rfl
        rw [← h1]
        congr 1
        omega
      rw [hht, List.cons_append, List.tail_cons, htl]

theorem mem_acceptedBoxes_valid {calls : List (Option Box)} {b : Box}
    (hb : b ∈ acceptedBoxes calls) : isValidFaceSize b = true := by
  unfold acceptedBoxes at hb
  rw [List.mem_filterMap] at hb
  obtain ⟨c, _, heq⟩ := hb
  match c with
  | none => exact Option.noConfusion heq
  | some b0 =>
    have heq2 : (if isValidFaceSize b0 = true then some b0 else none) = some b := heq
    by_cases hv : isValidFaceSize b0
    · rw [if_pos hv] at heq2
      cases heq2
      exact hv
    · rw [if_neg hv] at heq2
      exact Option.noConfusion heq2

theorem updateFaceHistory_foldl (calls : List (Option Box)) :
    ∀ acc : List Box,
      calls.foldl updateFaceHistory
        ⟨acc.getLast?, acc.drop (acc.length - maxHistoryLength)⟩ =
      ⟨(acc ++ acceptedBoxes calls).getLast?,
        (acc ++ acceptedBoxes calls).drop
          ((acc ++ acceptedBoxes calls).length - maxHistoryLength)⟩ := by
  induction calls with
  | nil => intro acc; simp [acceptedBoxes]
  | cons c rest ih =>
    intro acc
    rw [List.foldl_cons]
    match c with
    | none =>
      have hupd : updateFaceHistory
          ⟨acc.getLast?, acc.drop (acc.length - maxHistoryLength)⟩ none =
          ⟨acc.getLast?, acc.drop (acc.length - maxHistoryLength)⟩ := rfl
      have hacc : acceptedBoxes (none :: rest) = acceptedBoxes rest := by
        simp [acceptedBoxes]
      rw [hupd, ih acc, hacc]
    | some b =>
      by_cases hv : isValidFaceSize b
      · have hacc : acceptedBoxes (some b :: rest) = b :: acceptedBoxes rest := by
          simp [acceptedBoxes, hv]
        rw [updateFaceHistory_step acc b hv, ih (acc ++ [b]), hacc,
          ← List.append_cons acc b (acceptedBoxes rest)]
      · have hupd : updateFaceHistory
            ⟨acc.getLast?, acc.drop (acc.length - maxHistoryLength)⟩ (some b) =
            ⟨acc.getLast?, acc.drop (acc.length - maxHistoryLength)⟩ := by
          simp [updateFaceHistory, hv]
        have hacc : acceptedBoxes (some b :: rest) = acceptedBoxes rest := by
          simp [acceptedBoxes, hv]
        rw [hupd, ih acc, hacc]

/-- C5: after any sequence of `updateFaceHistory` calls from the initial state,
the history is exactly the (at most 5) most recently accepted valid boxes in
chronological order (most recent last), every stored box passes
`isValidFaceSize`, `lastKnownFacePosition` is the most recently accepted box,
and a call with an invalid box leaves the state unchanged. -/
theorem updateFaceHistory_invariant (calls : List (Option Box)) :
    (calls.foldl updateFaceHistory initialFPState).faceTrackingHistory =
      (acceptedBoxes calls).drop ((acceptedBoxes calls).length - maxHistoryLength) ∧
    (calls.foldl updateFaceHistory initialFPState).lastKnownFacePosition =
      (acceptedBoxes calls).getLast? ∧
    (calls.foldl updateFaceHistory initialFPState).faceTrackingHistory.length ≤
      maxHistoryLength ∧
    (∀ b ∈ (calls.foldl updateFaceHistory initialFPState).faceTrackingHistory,
      isValidFaceSize b = true) ∧
    (∀ st : FPState, ∀ b : Box, isValidFaceSize b = false →
      updateFaceHistory st (some b) = st) := by
  have h0 : initialFPState =
      (⟨List.getLast? ([] : List Box),
        List.drop (List.length ([] : List Box) - maxHistoryLength) ([] : List Box)⟩
        : FPState) := rfl
  have h := updateFaceHistory_foldl calls []
  rw [← h0] at h
  rw [List.nil_append] at h
  refine ⟨by rw [h], by rw [h], ?_, ?_, ?_⟩
  · rw [h]
    simp only [List.length_drop, maxHistoryLength]
    omega
  · intro b hb
    rw [h] at hb
    exact mem_acceptedBoxes_valid (List.mem_of_mem_drop hb)
  · intro st b hbv
    simp [updateFaceHistory, hbv]

/-- C5 witness: six valid boxes and one invalid box; the history keeps the last
five valid boxes in order and `lastKnownFacePosition` is the last one. -/
theorem updateFaceHistory_invariant_witness :
    ([some ⟨0, 0, 31, 30⟩, none, some ⟨0, 0, 5, 5⟩, some ⟨0, 0, 32, 30⟩,
        some ⟨0, 0, 33, 30⟩, some ⟨0, 0, 34, 30⟩, some ⟨0, 0, 35, 30⟩,
        some ⟨0, 0, 36, 30⟩].foldl updateFaceHistory
        initialFPState).faceTrackingHistory =
      [⟨0, 0, 32, 30⟩, ⟨0, 0, 33, 30⟩, ⟨0, 0, 34, 30⟩, ⟨0, 0, 35, 30⟩,
        ⟨0, 0, 36, 30⟩] ∧
    (([some ⟨0, 0, 31, 30⟩, none, some ⟨0, 0, 5, 5⟩, some ⟨0, 0, 32, 30⟩,
        some ⟨0, 0, 33, 30⟩, some ⟨0, 0, 34, 30⟩, some ⟨0, 0, 35, 30⟩,
        some ⟨0, 0, 36, 30⟩].foldl updateFaceHistory
        initialFPState).lastKnownFacePosition = some ⟨0, 0, 36, 30⟩) := by
  have h := updateFaceHistory_invariant
    [some ⟨0, 0, 31, 30⟩, none, some ⟨0, 0, 5, 5⟩, some ⟨0, 0, 32, 30⟩,
      some ⟨0, 0, 33, 30⟩, some ⟨0, 0, 34, 30⟩, some ⟨0, 0, 35, 30⟩,
      some ⟨0, 0, 36, 30⟩]
  exact ⟨h.1.trans (by decide), h.2.1.trans (by decide)⟩

/-! ML-detector bounding-box normalization (claim C3), from
`processFaceDetection` (script.js:1603-1657). -/

/-- The two bounding-box shapes an external ML detector result may have:
`face.box = {xMin, yMin, width, height}` or
`face.boundingBox = {topLeft:{x,y}, width, height}`. Fields are raw JS
numbers. -/
inductive MLBoxShape where
  | boxForm (xMin yMin width height : ℚ)
  | boundingBoxForm (topLeftX topLeftY width height : ℚ)
  deriving DecidableEq, Repr

/-- Normalization of an ML result into a candidate `bbox`
(script.js:1616-1632): `x = max(0, round ·)`, `width = min(round ·, 160)`,
`height = min(round ·, 120)`. -/
def normalizeMLBox (r : MLBoxShape) : Box :=
  match r with
  | .boxForm xMin yMin w h =>
      ⟨max 0 (jsRound xMin), max 0 (jsRound yMin),
        min (jsRound w) (frameWidth : ℤ), min (jsRound h) (frameHeight : ℤ)⟩
  | .boundingBoxForm tx ty w h =>
      ⟨max 0 (jsRound tx), max 0 (jsRound ty),
        min (jsRound w) (frameWidth : ℤ), min (jsRound h) (frameHeight : ℤ)⟩

/-- The orchestrator's acceptance step (script.js:1634-1649): the positive
width/height check runs first, and only then the "final bounds validation"
mutates `bbox.width`/`bbox.height`; the resulting box is the one passed to
`updateFaceHistory` and `applyFaceFilter`. Returns `none` when the check
fails (the source then falls back to `detectFaceManually`). -/
def acceptMLBox (r : MLBoxShape) : Option Box :=
  let bbox := normalizeMLBox r
  if 0 < bbox.width ∧ 0 < bbox.height then
    some ⟨bbox.x, bbox.y,
      if bbox.x + bbox.width > (frameWidth : ℤ) then (frameWidth : ℤ) - bbox.x
      else bbox.width,
      if bbox.y + bbox.height > (frameHeight : ℤ) then (frameHeight : ℤ) - bbox.y
      else bbox.height⟩
  else none

/-- C3: an ML result with `xMin = 200` on the 160-wide frame passes the
positive-size check (done before the final clamp), and the box the orchestrator
then accepts has width `160 - 200 = -40`: the claimed invariant
`width > 0` fails for the accepted detection. -/
theorem acceptMLBox_failing_input :
    acceptMLBox (.boxForm 200 10 50 40) = some ⟨200, 10, -40, 40⟩ ∧
    ¬ (0 < (-40 : ℤ)) := by
  constructor
  · exact of_decide_eq_true (by with_unfolding_all rfl)
  · decide

/-! Capture/processing/tracking interleaving (claim C9), from
`UIController.captureImage` (script.js:1154-1190), the processing timeout
callback (script.js:1174-1180) and `startPeriodicFaceTracking`
(script.js:1750-1764). -/

/-- Driver-level state: the captured frame (identified by a tag), the
`isCapturing` flag, whether a processing timeout is pending, the camera flags
and the detector state. `processedCount` counts completed `processImages`
runs. -/
structure AppState where
  capturedImage : Option ℕ
  isCapturing : Bool
  processingPending : Bool
  cameraActive : Bool
  videoReady : Bool
  fp : FPState
  processedCount : ℕ
  deriving DecidableEq, Repr

/-- Events of the cooperative driver loop: a click on the capture button
(capturing `frame`), the 100 ms processing timeout firing, and a periodic
face-tracking tick whose ML detection produced `detection`. -/
inductive UIEvent where
  | captureClick (frame : ℕ)
  | processTimeout
  | trackTick (detection : Option Box)
  deriving DecidableEq, Repr

/-- One step of the driver. `captureClick`: if the video is ready the frame is
captured (overwriting `capturedImage`), `isCapturing` is set and processing is
scheduled — the source has no `isCapturing` test on this path. The timeout
processes only if `isCapturing` is still set. A tracking tick runs only when
the camera is active, video ready and no capture is in flight
(`!isCapturing`); it then updates the detector history. -/
def uiStep (s : AppState) (e : UIEvent) : AppState :=
  match e with
  | .captureClick f =>
    if s.videoReady then
      { s with
          capturedImage := some f
          isCapturing := true
          processingPending := true }
    else s
  | .processTimeout =>
    if s.processingPending then
      if s.isCapturing then
        { s with
          isCapturing := false
          processingPending := false
          processedCount := s.processedCount + 1 }
      else { s with processingPending := false }
    else s
  | .trackTick det =>
    if s.cameraActive && s.videoReady && !s.isCapturing then
      { s with fp := updateFaceHistory s.fp det }
    else s

/-- A state in which a previous capture's processing is still in flight. -/
def busyState : AppState :=
  ⟨some 1, true, true, true, true, initialFPState, 0⟩

/-- C9 counterexample: while the previous capture's processing is in flight
(`isCapturing = true`), a new capture request is not rejected: the capture step
runs and overwrites the captured frame. -/
theorem captureClick_not_rejected_while_processing :
    busyState.isCapturing = true ∧
    (uiStep busyState (.captureClick 2)).capturedImage = some 2 ∧
    (uiStep busyState (.captureClick 2)).capturedImage ≠ busyState.capturedImage := by
  refine ⟨rfl, rfl, ?_⟩
  decide

/-- C9 (amended): what the `isCapturing` guard actually does. A capture click
with the video ready always captures and overwrites the frame, even while a
previous capture is processing; the guard instead (a) makes the periodic
tracking tick a no-op while a capture is in flight, and (b) gates the scheduled
processing callback, which only processes while `isCapturing` is set. -/
theorem isCapturing_guard (s : AppState) (f : ℕ) (det : Option Box) :
    (s.videoReady = true →
      (uiStep s (.captureClick f)).capturedImage = some f ∧
      (uiStep s (.captureClick f)).isCapturing = true ∧
      (uiStep s (.captureClick f)).processingPending = true) ∧
    (s.isCapturing = true → uiStep s (.trackTick det) = s) ∧
    (s.isCapturing = false →
      (uiStep s .processTimeout).processedCount = s.processedCount) ∧
    (s.isCapturing = true → s.processingPending = true →
      (uiStep s .processTimeout).processedCount = s.processedCount + 1 ∧
      (uiStep s .processTimeout).isCapturing = false) := by
  refine ⟨?_, ?_, ?_, ?_⟩
  · intro hv
    simp [uiStep, hv]
  · intro hc
    simp [uiStep, hc]
  · intro hc
    by_cases hp : s.processingPending <;> simp [uiStep, hc, hp]
  · intro hc hp
    simp [uiStep, hc, hp]

/-- C9 witness: in the busy state a tracking tick is skipped, and the pending
processing completes exactly once. -/
theorem isCapturing_guard_witness :
    uiStep busyState (.trackTick (some ⟨0, 0, 40, 40⟩)) = busyState ∧
    (uiStep busyState .processTimeout).processedCount = 1 := by
  have h := isCapturing_guard busyState 2 (some ⟨0, 0, 40, 40⟩)
  exact ⟨h.2.1 rfl, (h.2.2.2 rfl rfl).1⟩

/-! The heuristic face detector (claims C1 and C10): skin-tone scan, motion
tracker, multi-scale region scan and center fallback, from `FaceProcessor`
(script.js:517-914). The `Math.sqrt` primitive used by `standardDeviation` is
external; the scoring functions are parametrised by it (`sqrtFn`). -/

/-- Bounded model of a JS `for (v = a; v < b; v += step)` loop counter: the
list of visited values. The fuel `(b - a).toNat` bounds the iteration count
for any positive step. -/
def stepRangeAux (fuel : ℕ) (a b step : ℤ) : List ℤ :=
  match fuel with
  | 0 => []
  | n + 1 => if a < b then a :: stepRangeAux n (a + step) b step else []

/-- Values visited by `for (v = a; v < b; v += step)`. -/
def stepRange (a b step : ℤ) : List ℤ := stepRangeAux (b - a).toNat a b step

theorem mem_stepRangeAux {step : ℤ} (hs : 0 < step) :
    ∀ (fuel : ℕ) (a b e : ℤ), e ∈ stepRangeAux fuel a b step → a ≤ e ∧ e < b := by
  intro fuel
  induction fuel with
  | zero => intro a b e h; simp [stepRangeAux] at h
  | succ n ih =>
    intro a b e h
    rw [stepRangeAux] at h
    by_cases hab : a < b
    · rw [if_pos hab] at h
      rcases List.mem_cons.mp h with rfl | h2
      · exact ⟨le_refl _, hab⟩
      · obtain ⟨h3, h4⟩ := ih (a + step) b e h2
        exact ⟨by omega, h4⟩
    · rw [if_neg hab] at h
      simp at h

theorem mem_stepRange {a b step e : ℤ} (hs : 0 < step)
    (h : e ∈ stepRange a b step) : a ≤ e ∧ e < b :=
  mem_stepRangeAux hs _ a b e h

/-- `FaceProcessor.isSkinTone` (script.js:596-624): four OR'd heuristic rules
for light / medium / darker / medium-dark skin tones. -/
def isSkinTone (r g b : ℚ) : Bool :=
  if r > 95 ∧ g > 40 ∧ b > 20 ∧
      max r (max g b) - min r (min g b) > 15 ∧
      |r - g| > 15 ∧ r > g ∧ r > b then true
  else if r > 80 ∧ g > 50 ∧ b > 30 ∧ r > g ∧ g > b ∧ r - g > 10 then true
  else if r > 50 ∧ g > 30 ∧ b > 15 ∧ r > g ∧ g ≥ b ∧ r - b > 15 then true
  else if r > 60 ∧ g > 40 ∧ b > 20 ∧ r > b ∧ g > b ∧ r - b > 10 ∧ g - b > 5 then true
  else false

/-- Skin pixels in one row of a region (inner loop of the counting loops). -/
def skinCountRow (img : Raster) (py x0 x1 : ℤ) : ℕ :=
  (stepRange x0 x1 1).countP fun px =>
    isSkinTone (img.pix px.toNat py.toNat).r (img.pix px.toNat py.toNat).g
      (img.pix px.toNat py.toNat).b

/-- Skin-pixel count of a region: the double loop
`for (y … y + h && y < img.height) for (x … x + w && x < img.width)`. -/
def skinCount (img : Raster) (x y w h : ℤ) : ℕ :=
  ((stepRange y (min (y + h) (img.height : ℤ)) 1).map fun py =>
    skinCountRow img py x (min (x + w) (img.width : ℤ))).sum

/-- Number of pixels visited by the same double loop (`totalPixels`). -/
def pixelTotal (img : Raster) (x y w h : ℤ) : ℕ :=
  ((stepRange y (min (y + h) (img.height : ℤ)) 1).map fun _ =>
    (stepRange x (min (x + w) (img.width : ℤ)) 1).length).sum

/-- `FaceProcessor.calculateSkinDensity` (script.js:676-704): skin-pixel ratio
of the region, 0 when no pixel is visited. -/
def calculateSkinDensity (img : Raster) (x y width height : ℤ) : ℚ :=
  let skinPixels := skinCount img x y width height
  let totalPixels := pixelTotal img x y width height
  if totalPixels > 0 then (skinPixels : ℚ) / (totalPixels : ℚ) else 0

/-- The five candidate regions of `detectBySkinTone` (script.js:531-537), as
`(x, y, w, h)` in the order top-left, top-right, center-large, center-medium,
center-small. -/
def skinRegions (img : Raster) : List (ℤ × ℤ × ℤ × ℤ) :=
  [(jsRound ((img.width : ℚ) * (1/10)), jsRound ((img.height : ℚ) * (1/10)),
    jsRound ((img.width : ℚ) * (4/10)), jsRound ((img.height : ℚ) * (4/10))),
   (jsRound ((img.width : ℚ) * (5/10)), jsRound ((img.height : ℚ) * (1/10)),
    jsRound ((img.width : ℚ) * (4/10)), jsRound ((img.height : ℚ) * (4/10))),
   (jsRound ((img.width : ℚ) * (2/10)), jsRound ((img.height : ℚ) * (15/100)),
    jsRound ((img.width : ℚ) * (6/10)), jsRound ((img.height : ℚ) * (6/10))),
   (jsRound ((img.width : ℚ) * (25/100)), jsRound ((img.height : ℚ) * (2/10)),
    jsRound ((img.width : ℚ) * (5/10)), jsRound ((img.height : ℚ) * (5/10))),
   (jsRound ((img.width : ℚ) * (3/10)), jsRound ((img.height : ℚ) * (25/100)),
    jsRound ((img.width : ℚ) * (4/10)), jsRound ((img.height : ℚ) * (4/10)))]

/-- One step of the `regions.forEach` accumulation in `detectBySkinTone`
(script.js:539-575): a region out of frame is skipped; otherwise it becomes
the best region only if it has strictly more skin pixels, ratio above 0.12 and
strictly higher ratio than the current best. The accumulator is
`(bestRegion, maxSkinPixels, maxSkinRatio)`. The `Math.round` on the stored
coordinates is the identity here since region coordinates are already
integers. -/
def skinScanStep (img : Raster) (acc : Option Box × ℕ × ℚ)
    (reg : ℤ × ℤ × ℤ × ℤ) : Option Box × ℕ × ℚ :=
  if reg.1 + reg.2.2.1 > (img.width : ℤ) ∨ reg.2.1 + reg.2.2.2 > (img.height : ℤ) then
    acc
  else
    let skinPixelCount := skinCount img reg.1 reg.2.1 reg.2.2.1 reg.2.2.2
    let totalPixels := pixelTotal img reg.1 reg.2.1 reg.2.2.1 reg.2.2.2
    let skinRatio : ℚ := if totalPixels > 0 then (skinPixelCount : ℚ) / totalPixels else 0
    if skinPixelCount > acc.2.1 ∧ skinRatio > 12/100 ∧ skinRatio > acc.2.2 then
      (some ⟨reg.1, reg.2.1, reg.2.2.1, reg.2.2.2⟩, skinPixelCount, skinRatio)
    else acc

/-- The tail `if (best && isValidFaceSize(best)) return best; return null`
shared by `detectBySkinTone` and `trackByMotion`. -/
def validateFace (o : Option Box) : Option Box :=
  match o with
  | some best => if isValidFaceSize best then some best else none
  | none => none

theorem validateFace_some {o : Option Box} {b : Box}
    (h : validateFace o = some b) : o = some b ∧ isValidFaceSize b = true := by
  match o with
  | none => exact Option.noConfusion h
  | some r =>
    have h2 : (if isValidFaceSize r = true then some r else none) = some b := h
    by_cases hv : isValidFaceSize r
    · rw [if_pos hv] at h2
      cases h2
      exact ⟨rfl, hv⟩
    · rw [if_neg hv] at h2
      exact Option.noConfusion h2

/-- `FaceProcessor.detectBySkinTone` (script.js:517-584). -/
def detectBySkinTone (img : Raster) : Option Box :=
  validateFace ((skinRegions img).foldl (skinScanStep img) (none, 0, 0)).1

/-- One candidate placement test of `trackByMotion` (script.js:643-663). The
accumulator is `(maxSkinDensity, bestPosition)`. -/
def motionStep (img : Raster) (lastPos : Box) (acc : ℚ × Option Box)
    (testX testY : ℤ) : ℚ × Option Box :=
  if testX + lastPos.width ≤ (img.width : ℤ) ∧
      testY + lastPos.height ≤ (img.height : ℤ) then
    let skinDensity := calculateSkinDensity img testX testY lastPos.width lastPos.height
    if skinDensity > acc.1 ∧ skinDensity > 1/10 then
      (skinDensity, some ⟨testX, testY, lastPos.width, lastPos.height⟩)
    else acc
  else acc

/-- The double offset loop of `trackByMotion` (script.js:643-664). -/
def motionSearch (img : Raster) (lastPos : Box) : ℚ × Option Box :=
  (stepRange (-25) 26 8).foldl (fun acc offsetY =>
    (stepRange (-25) 26 8).foldl (fun acc2 offsetX =>
      motionStep img lastPos acc2 (max 0 (lastPos.x + offsetX))
        (max 0 (lastPos.y + offsetY))) acc) ((0 : ℚ), (none : Option Box))

/-- `FaceProcessor.trackByMotion` (script.js:627-673): only applicable with a
previous position; searches offsets −25 … 25 in steps of 8 on both axes. -/
def trackByMotion (s : FPState) (img : Raster) : Option Box :=
  match s.lastKnownFacePosition with
  | none => none
  | some lastPos => validateFace (motionSearch img lastPos).2

/-- `FaceProcessor.standardDeviation` (script.js:828-841), with the external
`Math.sqrt` primitive abstracted as `sqrtFn`. -/
def standardDeviation (sqrtFn : ℚ → ℚ) (values : List ℚ) : ℚ :=
  if values.length = 0 then 0
  else
    let mean := values.sum / (values.length : ℚ)
    let avgSquaredDiff := (values.map fun v => (v - mean) * (v - mean)).sum
      / (values.length : ℚ)
    sqrtFn avgSquaredDiff

/-- `FaceProcessor.calculateColorVariation` (script.js:792-825): sample the
region with an adaptive step and return `min 1 (avg std-dev / 40)`. -/
def calculateColorVariation (sqrtFn : ℚ → ℚ) (img : Raster)
    (x y width height : ℤ) : ℚ :=
  let stepSize : ℤ := max 1 (jsRound ((width : ℚ) / 10))
  let pts := (stepRange y (min (y + height) (img.height : ℤ)) stepSize).flatMap
    fun py => (stepRange x (min (x + width) (img.width : ℤ)) stepSize).map
      fun px => (px, py)
  let rValues := pts.map fun p => (img.pix p.1.toNat p.2.toNat).r
  let gValues := pts.map fun p => (img.pix p.1.toNat p.2.toNat).g
  let bValues := pts.map fun p => (img.pix p.1.toNat p.2.toNat).b
  let avgVariation := (standardDeviation sqrtFn rValues
    + standardDeviation sqrtFn gValues + standardDeviation sqrtFn bValues) / 3
  min 1 (avgVariation / 40)

/-- `FaceProcessor.scoreFaceRegion` (script.js:757-789): weighted sum of skin
density (0.40), vertical position preference (0.25, favoring the upper third),
color variation (0.15), size preference (0.10, favoring ≈50 px) and aspect
ratio preference (0.10, favoring 0.8). -/
def scoreFaceRegion (sqrtFn : ℚ → ℚ) (img : Raster)
    (x y width height : ℤ) : ℚ :=
  let skinToneScore := calculateSkinDensity img x y width height
  let positionScore := max 0 (min 1
    (1 - |((y : ℚ) + (height : ℚ) / 2) - (img.height : ℚ) * (35/100)|
      / ((img.height : ℚ) * (35/100))))
  let variationScore := calculateColorVariation sqrtFn img x y width height
  let sizeScore := max 0 (min 1
    (1 - |((width : ℚ) + (height : ℚ)) / 2 - 50| / 50))
  let aspectScore := max 0 (min 1
    (1 - |(width : ℚ) / (height : ℚ) - 8/10| / (8/10)))
  skinToneScore * (4/10) + positionScore * (25/100) + variationScore * (15/100)
    + sizeScore * (1/10) + aspectScore * (1/10)

/-- The five scan scales `0.3 … 0.7` (script.js:724). -/
def scanScales : List ℚ := [3/10, 4/10, 5/10, 6/10, 7/10]

/-- One position test of `scanForFaceRegions` (script.js:730-744); the
accumulator is `(maxScore, bestPosition)`. -/
def scanStep (sqrtFn : ℚ → ℚ) (img : Raster) (scanWidth scanHeight : ℤ)
    (acc : ℚ × Option Box) (x y : ℤ) : ℚ × Option Box :=
  let score := scoreFaceRegion sqrtFn img x y scanWidth scanHeight
  if score > acc.1 then (score, some ⟨x, y, scanWidth, scanHeight⟩) else acc

/-- `FaceProcessor.scanForFaceRegions` (script.js:707-754): multi-scale sliding
window; window size is `round (clamp (dim * scale) [35, 80])`, the step is
`max 8 (round (scanWidth * 0.2))`, and the loops run while
`pos <= dim - windowSize`. Only a best score above 0.15 is accepted. -/
def scanAtScale (sqrtFn : ℚ → ℚ) (img : Raster) (acc : ℚ × Option Box)
    (scale : ℚ) : ℚ × Option Box :=
  let scanWidth := jsRound (max 35 (min 80 ((img.width : ℚ) * scale)))
  let scanHeight := jsRound (max 35 (min 80 ((img.height : ℚ) * scale)))
  let stepSize := max 8 (jsRound ((scanWidth : ℚ) * (2/10)))
  (stepRange 0 ((img.height : ℤ) - scanHeight + 1) stepSize).foldl (fun acc2 y =>
    (stepRange 0 ((img.width : ℤ) - scanWidth + 1) stepSize).foldl (fun acc3 x =>
      scanStep sqrtFn img scanWidth scanHeight acc3 x y) acc2) acc

/-- The multi-scale loop of `scanForFaceRegions`. -/
def scanSearch (sqrtFn : ℚ → ℚ) (img : Raster) : ℚ × Option Box :=
  scanScales.foldl (scanAtScale sqrtFn img) ((0 : ℚ), (none : Option Box))

/-- The tail `if (bestPosition && maxScore > 0.15) return bestPosition;
return null` of `scanForFaceRegions`. -/
def acceptScan : ℚ × Option Box → Option Box
  | (maxScore, some bestPosition) =>
    if maxScore > 15/100 then some bestPosition else none
  | (_, none) => none

theorem acceptScan_some {p : ℚ × Option Box} {b : Box}
    (h : acceptScan p = some b) : p.2 = some b ∧ p.1 > 15/100 := by
  match p with
  | (sc, none) => exact Option.noConfusion h
  | (sc, some r) =>
    have h2 : (if sc > 15/100 then some r else none) = some b := h
    by_cases hc : sc > 15/100
    · rw [if_pos hc] at h2
      cases h2
      exact ⟨rfl, hc⟩
    · rw [if_neg hc] at h2
      exact Option.noConfusion h2

def scanForFaceRegions (sqrtFn : ℚ → ℚ) (img : Raster) : Option Box :=
  acceptScan (scanSearch sqrtFn img)

/-- `FaceProcessor.getDefaultCenterFace` (script.js:844-856): the central
50 % × 50 % box of the global 160 × 120 frame. -/
def getDefaultCenterFace : Box :=
  let width := jsRound ((frameWidth : ℚ) * (5/10))
  let height := jsRound ((frameHeight : ℚ) * (5/10))
  let x := jsRound (((frameWidth : ℚ) - (width : ℚ)) / 2)
  let y := jsRound (((frameHeight : ℚ) - (height : ℚ)) / 2)
  ⟨max 0 x, max 0 y, min width ((frameWidth : ℤ) - x),
    min height ((frameHeight : ℤ) - y)⟩

/-- `FaceProcessor.detectFaceManually` (script.js:871-914): runs the three
strategies, picks the first non-null in the order skin-tone, motion, scan
(`skinToneFace || motionFace || scanFace`), falls back to the center box, and
updates the tracking history with the chosen box. Returns the chosen box and
the new detector state. The compositing side effect on `faceImage`
(`applyFaceFilter`) does not affect the returned box and is modelled
separately (`processFace`). -/
def detectFaceManually (sqrtFn : ℚ → ℚ) (s : FPState) (img : Raster) :
    Box × FPState :=
  let skinToneFace := detectBySkinTone img
  let motionFace := trackByMotion s img
  let scanFace := scanForFaceRegions sqrtFn img
  let bestFace :=
    match skinToneFace with
    | some b => some b
    | none =>
      match motionFace with
      | some b => some b
      | none => scanFace
  let best :=
    match bestFace with
    | some b => b
    | none => getDefaultCenterFace
  (best, updateFaceHistory s (some best))

/-- C1: fallback ordering of `detectFaceManually`. Its result is the first
non-null of skin-tone, motion, scan, center-fallback in that fixed order; with
no last known position the motion tracker returns null, so when the skin-tone
scan also fails and the multi-scale scan accepts a region (best score > 0.15,
which is exactly when `scanForFaceRegions` returns non-null), that scanned
region is returned, not the center fallback. -/
theorem detectFaceManually_order (sqrtFn : ℚ → ℚ) (s : FPState) (img : Raster) :
    (∀ b, detectBySkinTone img = some b → (detectFaceManually sqrtFn s img).1 = b) ∧
    (s.lastKnownFacePosition = none → trackByMotion s img = none) ∧
    (detectBySkinTone img = none → ∀ b, trackByMotion s img = some b →
      (detectFaceManually sqrtFn s img).1 = b) ∧
    (detectBySkinTone img = none → s.lastKnownFacePosition = none →
      ∀ b, scanForFaceRegions sqrtFn img = some b →
      (detectFaceManually sqrtFn s img).1 = b) ∧
    (detectBySkinTone img = none → trackByMotion s img = none →
      scanForFaceRegions sqrtFn img = none →
      (detectFaceManually sqrtFn s img).1 = getDefaultCenterFace) := by
  have hmot : s.lastKnownFacePosition = none → trackByMotion s img = none := by
    intro h
    simp [trackByMotion, h]
  refine ⟨?_, hmot, ?_, ?_, ?_⟩
  · intro b h
    simp [detectFaceManually, h]
  · intro hskin b h
    simp [detectFaceManually, hskin, h]
  · intro hskin hlast b h
    simp [detectFaceManually, hskin, hmot hlast, h]
  · intro hskin hmo hscan
    simp [detectFaceManually, hskin, hmo, hscan]

/-- A 35 × 35 frame whose every pixel is the skin tone (150, 100, 50). -/
def skinImg : Raster := ⟨35, 35, fun _ _ => ⟨150, 100, 50, 255⟩⟩

/-- Concrete stand-in for the external `Math.sqrt` primitive, used only to
instantiate theorems; on the constant test frame every variance is 0 and
`Math.sqrt 0 = 0`, which this function matches. -/
def zeroSqrt : ℚ → ℚ := fun _ => 0

set_option maxHeartbeats 8000000 in
set_option maxRecDepth 100000 in
/-- C1 witness: on the constant 35 × 35 skin frame every skin-scan candidate
region is smaller than the 30 px minimum so `detectBySkinTone` returns null,
there is no last known position so the motion tracker returns null, the
multi-scale scan accepts the full-frame window, and `detectFaceManually`
returns exactly that scanned region (not the center fallback). -/
theorem detectFaceManually_order_witness :
    (detectFaceManually zeroSqrt initialFPState skinImg).1 = ⟨0, 0, 35, 35⟩ := by
  have hskin : detectBySkinTone skinImg = none :=
    of_decide_eq_true (by with_unfolding_all rfl)
  have hscan : scanForFaceRegions zeroSqrt skinImg = some ⟨0, 0, 35, 35⟩ :=
    of_decide_eq_true (by with_unfolding_all rfl)
  exact (detectFaceManually_order zeroSqrt initialFPState skinImg).2.2.2.1
    hskin rfl ⟨0, 0, 35, 35⟩ hscan

theorem foldl_preserve {α : Type _} {β : Type _} (f : β → α → β) (P : β → Prop) :
    ∀ (l : List α) (b : β), P b → (∀ x a, a ∈ l → P x → P (f x a)) →
      P (l.foldl f b) := by
  intro l
  induction l with
  | nil => intro b hb _; exact hb
  | cons a rest ih =>
    intro b hb hstep
    rw [List.foldl_cons]
    exact ih (f b a) (hstep b a (List.mem_cons_self a rest) hb)
      fun x c hc hx => hstep x c (List.mem_cons_of_mem a hc) hx

theorem jsRound_in_Icc {q : ℚ} {lo hi : ℤ} (h1 : (lo : ℚ) ≤ q)
    (h2 : q ≤ (hi : ℚ)) : lo ≤ jsRound q ∧ jsRound q ≤ hi := by
  constructor
  · exact Int.le_floor.mpr (by push_cast; linarith)
  · have hle : (jsRound q : ℚ) ≤ (hi : ℚ) + 1/2 := by
      have hf := Int.floor_le (q + 1/2)
      unfold jsRound
      linarith
    have h3 : jsRound q < hi + 1 := by
      have h4 : (jsRound q : ℚ) < ((hi + 1 : ℤ) : ℚ) := by push_cast; linarith
      exact_mod_cast h4
    omega

theorem skinRegions_nonneg (img : Raster) :
    ∀ reg ∈ skinRegions img, 0 ≤ reg.1 ∧ 0 ≤ reg.2.1 := by
  intro reg hreg
  have hw : (0 : ℚ) ≤ (img.width : ℚ) := by positivity
  have hh : (0 : ℚ) ≤ (img.height : ℚ) := by positivity
  fin_cases hreg <;>
    exact ⟨jsRound_nonneg (by positivity), jsRound_nonneg (by positivity)⟩

/-- Frame-bounds invariant used for the skin-scan accumulator. -/
def InFrame (img : Raster) (r : Box) : Prop :=
  0 ≤ r.x ∧ 0 ≤ r.y ∧ r.x + r.width ≤ (img.width : ℤ) ∧
  r.y + r.height ≤ (img.height : ℤ)

/-- Any box produced by `detectBySkinTone` is one of the in-frame candidate
regions and passed `isValidFaceSize`. -/
theorem detectBySkinTone_bounds {img : Raster} {b : Box}
    (h : detectBySkinTone img = some b) :
    isValidFaceSize b = true ∧ InFrame img b := by
  have hstep : ∀ (acc : Option Box × ℕ × ℚ) (reg : ℤ × ℤ × ℤ × ℤ),
      reg ∈ skinRegions img →
      (∀ r : Box, acc.1 = some r → InFrame img r) →
      (∀ r : Box, (skinScanStep img acc reg).1 = some r → InFrame img r) := by
    intro acc reg hreg hP
    have haccept : ∀ (n : ℕ) (q : ℚ),
        ¬(reg.1 + reg.2.2.1 > (img.width : ℤ) ∨ reg.2.1 + reg.2.2.2 > (img.height : ℤ)) →
        ∀ r : Box, (some (⟨reg.1, reg.2.1, reg.2.2.1, reg.2.2.2⟩ : Box), n, q).1 = some r →
        InFrame img r := by
      intro n q h1 r hr
      cases hr
      push_neg at h1
      obtain ⟨hx0, hy0⟩ := skinRegions_nonneg img reg hreg
      exact ⟨hx0, hy0, h1.1, h1.2⟩
    simp only [skinScanStep]
    split_ifs with h1 h2 h3 h4
    · exact hP
    · exact haccept _ _ h1
    · exact hP
    · exact haccept _ _ h1
    · exact hP
  have hinv := foldl_preserve (skinScanStep img)
    (fun acc => ∀ r : Box, acc.1 = some r → InFrame img r)
    (skinRegions img) (none, 0, 0)
    (by intro r hr; exact Option.noConfusion hr) hstep
  unfold detectBySkinTone at h
  obtain ⟨hres, hv⟩ := validateFace_some h
  exact ⟨hv, hinv b hres⟩

/-- Any box produced by `trackByMotion` lies in the frame and passed
`isValidFaceSize`. -/
theorem trackByMotion_bounds {s : FPState} {img : Raster} {b : Box}
    (h : trackByMotion s img = some b) :
    isValidFaceSize b = true ∧ InFrame img b := by
  unfold trackByMotion at h
  rcases hlast : s.lastKnownFacePosition with _ | lastPos
  · rw [hlast] at h
    exact Option.noConfusion h
  rw [hlast] at h
  obtain ⟨hres, hv⟩ := validateFace_some h
  have hstep : ∀ (acc : ℚ × Option Box) (u v : ℤ),
      (∀ r : Box, acc.2 = some r → InFrame img r) →
      (∀ r : Box, (motionStep img lastPos acc (max 0 u) (max 0 v)).2 = some r →
        InFrame img r) := by
    intro acc u v hacc
    simp only [motionStep]
    split_ifs with h1 h2
    · intro r hr
      cases hr
      exact ⟨le_max_left _ _, le_max_left _ _, h1.1, h1.2⟩
    · exact hacc
    · exact hacc
  have hinv := foldl_preserve _
    (fun acc : ℚ × Option Box => ∀ r : Box, acc.2 = some r → InFrame img r)
    (stepRange (-25) 26 8) ((0 : ℚ), none)
    (by intro r hr; exact Option.noConfusion hr)
    (fun acc offY _ hacc => foldl_preserve _
      (fun acc : ℚ × Option Box => ∀ r : Box, acc.2 = some r → InFrame img r)
      (stepRange (-25) 26 8) acc hacc
      fun acc2 offX _ hacc2 =>
        hstep acc2 (lastPos.x + offX) (lastPos.y + offY) hacc2)
  exact ⟨hv, hinv b (by rw [← motionSearch]; exact hres)⟩

/-- Frame- and size-bounds invariant for the multi-scale scan accumulator. -/
def ScanInv (img : Raster) (acc : ℚ × Option Box) : Prop :=
  ∀ r : Box, acc.2 = some r →
    35 ≤ r.width ∧ r.width ≤ 80 ∧ 35 ≤ r.height ∧ r.height ≤ 80 ∧ InFrame img r

/-- Any box produced by `scanForFaceRegions` lies in the frame and its window
size is in `[35, 80]` on both axes. -/
theorem scanForFaceRegions_bounds {sqrtFn : ℚ → ℚ} {img : Raster} {b : Box}
    (h : scanForFaceRegions sqrtFn img = some b) :
    35 ≤ b.width ∧ b.width ≤ 80 ∧ 35 ≤ b.height ∧ b.height ≤ 80 ∧
    InFrame img b := by
  unfold scanForFaceRegions at h
  obtain ⟨hres, _⟩ := acceptScan_some h
  have hscale : ∀ (acc : ℚ × Option Box) (scale : ℚ), scale ∈ scanScales →
      ScanInv img acc → ScanInv img (scanAtScale sqrtFn img acc scale) := by
    intro acc scale _ hacc
    simp only [scanAtScale]
    have hwB := jsRound_in_Icc
      (show ((35 : ℤ) : ℚ) ≤ max 35 (min 80 ((img.width : ℚ) * scale)) by
        push_cast; exact le_max_left _ _)
      (show max 35 (min 80 ((img.width : ℚ) * scale)) ≤ ((80 : ℤ) : ℚ) by
        push_cast; exact max_le (by norm_num) (min_le_left _ _))
    have hhB := jsRound_in_Icc
      (show ((35 : ℤ) : ℚ) ≤ max 35 (min 80 ((img.height : ℚ) * scale)) by
        push_cast; exact le_max_left _ _)
      (show max 35 (min 80 ((img.height : ℚ) * scale)) ≤ ((80 : ℤ) : ℚ) by
        push_cast; exact max_le (by norm_num) (min_le_left _ _))
    have hstep0 : (0 : ℤ) <
        max 8 (jsRound ((jsRound (max 35 (min 80 ((img.width : ℚ) * scale))) : ℚ) * (2/10))) :=
      lt_of_lt_of_le (by norm_num) (le_max_left _ _)
    refine foldl_preserve _ (ScanInv img) _ acc hacc ?ystep
    intro acc2 y hy hacc2
    refine foldl_preserve _ (ScanInv img) _ acc2 hacc2 ?xstep
    intro acc3 x hx hacc3
    simp only [scanStep]
    split_ifs with hs
    · intro r hr
      cases hr
      obtain ⟨hy0, hy1⟩ := mem_stepRange hstep0 hy
      obtain ⟨hx0, hx1⟩ := mem_stepRange hstep0 hx
      refine ⟨hwB.1, hwB.2, hhB.1, hhB.2, ?_⟩
      unfold InFrame
      dsimp only
      exact ⟨hx0, hy0, by omega, by omega⟩
    · exact hacc3
  have hinv := foldl_preserve (scanAtScale sqrtFn img) (ScanInv img)
    scanScales ((0 : ℚ), none)
    (by intro r hr; exact Option.noConfusion hr) hscale
  exact hinv b (by rw [← scanSearch]; exact hres)

/-- The deterministic center fallback on the 160 × 120 frame: an 80 × 60 box
at (40, 30). -/
theorem getDefaultCenterFace_eq : getDefaultCenterFace = ⟨40, 30, 80, 60⟩ :=
  of_decide_eq_true (by with_unfolding_all rfl)

/-- C10: at the 160 × 120 frame size, `detectFaceManually` returns a box that
lies entirely within the frame and passes `isValidFaceSize`, whichever
strategy produced it (including the center fallback). -/
theorem detectFaceManually_in_frame (sqrtFn : ℚ → ℚ) (s : FPState)
    (img : Raster) (hw : img.width = 160) (hh : img.height = 120) :
    0 ≤ (detectFaceManually sqrtFn s img).1.x ∧
    0 ≤ (detectFaceManually sqrtFn s img).1.y ∧
    (detectFaceManually sqrtFn s img).1.x
      + (detectFaceManually sqrtFn s img).1.width ≤ 160 ∧
    (detectFaceManually sqrtFn s img).1.y
      + (detectFaceManually sqrtFn s img).1.height ≤ 120 ∧
    isValidFaceSize (detectFaceManually sqrtFn s img).1 = true := by
  have finish160 : ∀ b : Box, isValidFaceSize b = true → InFrame img b →
      0 ≤ b.x ∧ 0 ≤ b.y ∧ b.x + b.width ≤ 160 ∧ b.y + b.height ≤ 120 ∧
      isValidFaceSize b = true := by
    intro b hv hif
    unfold InFrame at hif
    rw [hw, hh] at hif
    push_cast at hif
    exact ⟨hif.1, hif.2.1, hif.2.2.1, hif.2.2.2, hv⟩
  rcases hskin : detectBySkinTone img with _ | bsk
  · rcases hmot : trackByMotion s img with _ | bmo
    · rcases hscan : scanForFaceRegions sqrtFn img with _ | bsc
      · have hres : (detectFaceManually sqrtFn s img).1 = getDefaultCenterFace := by
          simp [detectFaceManually, hskin, hmot, hscan]
        rw [hres, getDefaultCenterFace_eq]
        exact ⟨by decide, by decide, by decide, by decide, by decide⟩
      · have hres : (detectFaceManually sqrtFn s img).1 = bsc := by
          simp [detectFaceManually, hskin, hmot, hscan]
        obtain ⟨h35w, h80w, h35h, h80h, hif⟩ := scanForFaceRegions_bounds hscan
        have hv : isValidFaceSize bsc = true := by
          simp only [isValidFaceSize, minFaceSize, maxFaceSize, Bool.and_eq_true,
            decide_eq_true_eq]
          refine ⟨⟨⟨?_, ?_⟩, ?_⟩, ?_⟩ <;> omega
        rw [hres]
        exact finish160 bsc hv hif
    · have hres : (detectFaceManually sqrtFn s img).1 = bmo := by
        simp [detectFaceManually, hskin, hmot]
      obtain ⟨hv, hif⟩ := trackByMotion_bounds hmot
      rw [hres]
      exact finish160 bmo hv hif
  · have hres : (detectFaceManually sqrtFn s img).1 = bsk := by
      simp [detectFaceManually, hskin]
    obtain ⟨hv, hif⟩ := detectBySkinTone_bounds hskin
    rw [hres]
    exact finish160 bsk hv hif

/-- A uniform mid-gray frame at the default 160 × 120 resolution. -/
def frameImg : Raster := ⟨160, 120, fun _ _ => ⟨128, 128, 128, 255⟩⟩

/-- C10 witness: on a concrete 160 × 120 frame from the initial detector
state, the returned box is in frame and of valid size. -/
theorem detectFaceManually_in_frame_witness :
    0 ≤ (detectFaceManually zeroSqrt initialFPState frameImg).1.x ∧
    0 ≤ (detectFaceManually zeroSqrt initialFPState frameImg).1.y ∧
    (detectFaceManually zeroSqrt initialFPState frameImg).1.x
      + (detectFaceManually zeroSqrt initialFPState frameImg).1.width ≤ 160 ∧
    (detectFaceManually zeroSqrt initialFPState frameImg).1.y
      + (detectFaceManually zeroSqrt initialFPState frameImg).1.height ≤ 120 ∧
    isValidFaceSize (detectFaceManually zeroSqrt initialFPState frameImg).1 = true :=
  detectFaceManually_in_frame zeroSqrt initialFPState frameImg rfl rfl

/-! HSV round trip (claim C8). `rgbToHsv` is the code's conversion; the inverse
is not in the repository, so it is modelled from the spec's words ("the
standard inverse HSV-to-RGB formula"): the single-formula inverse
`f(n) = V − V·S·max(0, min(k, 4−k, 1))` with `k = (n + H/60) mod 6`, evaluated
at `n = 5, 3, 1` for R, G, B. -/

/-- The triangle profile `max(0, min(k, 4−k, 1))` of the standard inverse. -/
def triWave (k : ℚ) : ℚ := max 0 (min k (min (4 - k) 1))

/-- Real-valued `mod 6` (floor convention), as used in the standard inverse. -/
def mod6 (x : ℚ) : ℚ := x - 6 * (⌊x / 6⌋ : ℚ)

/-- The 6-periodic channel profile of the standard inverse. -/
def hueWave (x : ℚ) : ℚ := triWave (mod6 x)

/-- One channel of the standard inverse, on the 0–255 scale used by
`rgbToHsv`'s outputs: `V − V·S·hueWave (n + H/60)` with `S = s/255`,
`V = v/255`. -/
def hsvComp (h s v n : ℚ) : ℚ := v / 255 - v / 255 * (s / 255) * hueWave (n + h / 60)

/-- Reference inverse HSV-to-RGB conversion (spec §8): `(R, G, B)` from the
`(h, s, v)` returned by `rgbToHsv`. -/
def hsvToRgbRef (h s v : ℚ) : ℚ × ℚ × ℚ :=
  (255 * hsvComp h s v 5, 255 * hsvComp h s v 3, 255 * hsvComp h s v 1)

set_option maxRecDepth 10000 in
/-- C8 counterexample: for the input (255, 38, 7), `rgbToHsv` gives
(8, 248, 255) and the reconstructed green channel is 601/15 ≈ 40.067, which
deviates from the original 38 by 31/15 ≈ 2.067 > 2: hue rounding (7.5° → 8°)
at near-full saturation moves a channel by more than ±2. -/
theorem hsv_roundTrip_exceeds_two :
    2 < |(hsvToRgbRef ((rgbToHsv 255 38 7).1 : ℚ) ((rgbToHsv 255 38 7).2.1 : ℚ)
      ((rgbToHsv 255 38 7).2.2 : ℚ)).2.1 - 38| :=
  of_decide_eq_true (by with_unfolding_all rfl)

theorem mod6_nonneg (x : ℚ) : 0 ≤ mod6 x := by
  unfold mod6
  have := Int.floor_le (x / 6)
  nlinarith

theorem mod6_lt_six (x : ℚ) : mod6 x < 6 := by
  unfold mod6
  have := Int.lt_floor_add_one (x / 6)
  nlinarith

theorem mod6_eq_self {x : ℚ} (h0 : 0 ≤ x) (h6 : x < 6) : mod6 x = x := by
  unfold mod6
  have hf : ⌊x / 6⌋ = 0 := by
    rw [show (0 : ℤ) = ((0 : ℕ) : ℤ) from rfl, Int.floor_eq_iff]
    constructor <;> push_cast <;> linarith
  rw [hf]
  push_cast
  ring

theorem mod6_eq_sub {x : ℚ} (h0 : 6 ≤ x) (h6 : x < 12) : mod6 x = x - 6 := by
  unfold mod6
  have hf : ⌊x / 6⌋ = 1 := by
    rw [Int.floor_eq_iff]
    constructor <;> push_cast <;> linarith
  rw [hf]
  push_cast
  ring

theorem triWave_nonneg (k : ℚ) : 0 ≤ triWave k := le_max_left _ _

theorem triWave_le_one (k : ℚ) : triWave k ≤ 1 :=
  max_le (by norm_num) (le_trans (min_le_right _ _) (min_le_right _ _))

theorem triWave_eq_zero {k : ℚ} (h : k ≤ 0 ∨ 4 ≤ k) : triWave k = 0 := by
  unfold triWave
  rcases h with h | h
  · exact max_eq_left (le_trans (min_le_left _ _) h)
  · exact max_eq_left (le_trans (min_le_right _ _)
      (le_trans (min_le_left _ _) (by linarith)))

theorem triWave_eq_one {k : ℚ} (h1 : 1 ≤ k) (h3 : k ≤ 3) : triWave k = 1 := by
  unfold triWave
  rw [min_eq_right (by linarith : (1:ℚ) ≤ 4 - k), min_eq_right h1,
    max_eq_right (by norm_num : (0:ℚ) ≤ 1)]

theorem triWave_eq_ramp {k : ℚ} (h0 : 0 ≤ k) (h1 : k ≤ 1) : triWave k = k := by
  unfold triWave
  rw [min_eq_left (le_min (by linarith) h1), max_eq_right h0]

theorem triWave_eq_down {k : ℚ} (h3 : 3 ≤ k) (h4 : k ≤ 4) : triWave k = 4 - k := by
  unfold triWave
  rw [min_eq_left (by linarith : (4:ℚ) - k ≤ 1),
    min_eq_right (by linarith : (4:ℚ) - k ≤ k), max_eq_right (by linarith)]

theorem triWave_lipschitz (a c : ℚ) : |triWave a - triWave c| ≤ |a - c| := by
  unfold triWave
  refine le_trans (abs_max_sub_max_le_max 0 _ 0 _) ?_
  rw [sub_self, abs_zero]
  refine max_le (abs_nonneg _) ?_
  refine le_trans (abs_min_sub_min_le_max a _ c _) ?_
  refine max_le (le_refl _) ?_
  refine le_trans (abs_min_sub_min_le_max (4 - a) 1 (4 - c) 1) ?_
  refine max_le (by rw [show (4:ℚ) - a - (4 - c) = -(a - c) by ring, abs_neg]) ?_
  rw [sub_self, abs_zero]
  exact abs_nonneg _

theorem hueWave_nonneg (x : ℚ) : 0 ≤ hueWave x := triWave_nonneg _

theorem hueWave_le_one (x : ℚ) : hueWave x ≤ 1 := triWave_le_one _

theorem mod6_add_six (x : ℚ) : mod6 (x + 6) = mod6 x := by
  unfold mod6
  have h1 : (x + 6) / 6 = x / 6 + 1 := by ring
  rw [h1, Int.floor_add_one]
  push_cast
  ring

theorem hueWave_add_six (x : ℚ) : hueWave (x + 6) = hueWave x := by
  unfold hueWave
  rw [mod6_add_six]

theorem hueWave_lipschitz_le {x y : ℚ} (hxy : x ≤ y) :
    |hueWave x - hueWave y| ≤ |x - y| := by
  by_cases hd : 1 ≤ y - x
  · have h1 : |hueWave x - hueWave y| ≤ 1 := by
      have a1 := hueWave_nonneg x
      have a2 := hueWave_le_one x
      have a3 := hueWave_nonneg y
      have a4 := hueWave_le_one y
      rw [abs_le]
      constructor <;> linarith
    refine le_trans h1 ?_
    rw [abs_sub_comm, abs_of_nonneg (by linarith)]
    linarith
  push_neg at hd
  set n := ⌊x / 6⌋ with hn
  have hx1 : 6 * (n : ℚ) ≤ x := by
    have := Int.floor_le (x / 6)
    rw [← hn] at this
    linarith
  have hx2 : x < 6 * (n : ℚ) + 6 := by
    have := Int.lt_floor_add_one (x / 6)
    rw [← hn] at this
    have h6 : x / 6 < (n : ℚ) + 1 := this
    linarith
  by_cases hy6 : y < 6 * (n : ℚ) + 6
  · have hfy : ⌊y / 6⌋ = n := by
      rw [Int.floor_eq_iff]
      constructor
      · linarith
      · push_cast
        linarith
    unfold hueWave mod6
    rw [hfy, ← hn]
    refine le_trans (triWave_lipschitz _ _) (le_of_eq ?_)
    congr 1
    ring
  · push_neg at hy6
    have hfy : ⌊y / 6⌋ = n + 1 := by
      rw [Int.floor_eq_iff]
      constructor
      · push_cast
        linarith
      · push_cast
        linarith
    unfold hueWave mod6
    rw [hfy, ← hn]
    have e1 : triWave (x - 6 * (n : ℚ)) = 0 :=
      triWave_eq_zero (Or.inr (by linarith))
    have e2 : triWave (y - 6 * ((n : ℚ) + 1)) = y - 6 * ((n : ℚ) + 1) := by
      push_cast
      refine triWave_eq_ramp (by linarith) (by linarith)
    push_cast
    push_cast at e1 e2
    rw [e1, e2]
    rw [abs_sub_comm x y, abs_of_nonneg (by linarith : (0:ℚ) ≤ y - x)]
    rw [abs_of_nonpos (by linarith)]
    linarith

theorem hueWave_lipschitz (x y : ℚ) : |hueWave x - hueWave y| ≤ |x - y| := by
  rcases le_total x y with h | h
  · exact hueWave_lipschitz_le h
  · rw [abs_sub_comm, abs_sub_comm x y]
    exact hueWave_lipschitz_le h

/-- Error-propagation step shared by the three channels: if the channel is
exactly inverted at the unrounded hue `Hstar` and saturation `sstar`, then the
reconstruction from the rounded values is within 21/8 of the original. -/
theorem channel_error_bound (M stilde sstar h Hstar n orig : ℚ)
    (hM0 : 0 ≤ M) (hM : M ≤ 255)
    (hs0 : 0 ≤ stilde) (hs255 : stilde ≤ 255)
    (hserr : |stilde - 255 * sstar| ≤ 1/2)
    (hherr : |h - Hstar| ≤ 1/2)
    (hexact : M - M * sstar * hueWave (n + Hstar / 60) = orig) :
    |M - M * (stilde / 255) * hueWave (n + h / 60) - orig| ≤ 21/8 := by
  set gq1 := hueWave (n + h / 60) with hg1
  set gq2 := hueWave (n + Hstar / 60) with hg2
  have hgq1a : 0 ≤ gq1 := hueWave_nonneg _
  have hgq1b : gq1 ≤ 1 := hueWave_le_one _
  have hgq2a : 0 ≤ gq2 := hueWave_nonneg _
  have hgq2b : gq2 ≤ 1 := hueWave_le_one _
  have hlip : |gq1 - gq2| ≤ 1/120 := by
    rw [hg1, hg2]
    refine le_trans (hueWave_lipschitz _ _) ?_
    have e1 : n + h / 60 - (n + Hstar / 60) = (h - Hstar) / 60 := by ring
    rw [e1, abs_div, abs_of_nonneg (by norm_num : (0:ℚ) ≤ 60)]
    rw [div_le_iff (by norm_num)]
    linarith
  rw [← hexact]
  have e2 : M - M * (stilde / 255) * gq1 - (M - M * sstar * gq2) =
      M * (stilde / 255) * (gq2 - gq1) + M * (sstar - stilde / 255) * gq2 := by
    ring
  rw [e2]
  have hb1 : |M * (stilde / 255) * (gq2 - gq1)| ≤ 17/8 := by
    rw [abs_mul, abs_mul]
    rw [abs_of_nonneg hM0, abs_of_nonneg (by positivity : (0:ℚ) ≤ stilde / 255)]
    have h1 : M * (stilde / 255) ≤ 255 := by
      have : stilde / 255 ≤ 1 := by linarith [div_le_one_of_le hs255 (by norm_num : (0:ℚ) ≤ 255)]
      nlinarith
    have h2 : |gq2 - gq1| ≤ 1/120 := by rw [abs_sub_comm]; exact hlip
    calc M * (stilde / 255) * |gq2 - gq1| ≤ 255 * (1/120) := by
          apply mul_le_mul h1 h2 (abs_nonneg _) (by norm_num)
      _ = 17/8 := by norm_num
  have hb2 : |M * (sstar - stilde / 255) * gq2| ≤ 1/2 := by
    rw [abs_mul, abs_mul, abs_of_nonneg hM0]
    have h3 : |sstar - stilde / 255| ≤ 1/510 := by
      have e3 : sstar - stilde / 255 = -((stilde - 255 * sstar) / 255) := by ring
      rw [e3, abs_neg, abs_div, abs_of_nonneg (by norm_num : (0:ℚ) ≤ 255)]
      rw [div_le_iff (by norm_num)]
      linarith
    have h4 : |gq2| ≤ 1 := by rw [abs_of_nonneg hgq2a]; exact hgq2b
    calc M * |sstar - stilde / 255| * |gq2| ≤ 255 * (1/510) * 1 := by
          apply mul_le_mul (mul_le_mul hM h3 (abs_nonneg _) (by norm_num)) h4
            (abs_nonneg _) (by positivity)
      _ = 1/2 := by norm_num
  calc |M * (stilde / 255) * (gq2 - gq1) + M * (sstar - stilde / 255) * gq2|
      ≤ |M * (stilde / 255) * (gq2 - gq1)| + |M * (sstar - stilde / 255) * gq2| :=
        abs_add _ _
    _ ≤ 17/8 + 1/2 := add_le_add hb1 hb2
    _ = 21/8 := by norm_num

/-- Components of `rgbToHsv`, named for the proofs; `rgbToHsv_decomp` ties
them to the source definition. -/
def rgbMax (r g b : ℚ) : ℚ := max (r / 255) (max (g / 255) (b / 255))

/-- Minimum of the normalized channels. -/
def rgbMin (r g b : ℚ) : ℚ := min (r / 255) (min (g / 255) (b / 255))

/-- `diff = max − min` of the normalized channels. -/
def rgbDiff (r g b : ℚ) : ℚ := rgbMax r g b - rgbMin r g b

/-- The unrounded hue sector value `h0` computed by `rgbToHsv`. -/
def hue0 (r g b : ℚ) : ℚ :=
  if rgbDiff r g b = 0 then 0
  else if rgbMax r g b = r / 255 then jsRem ((g / 255 - b / 255) / rgbDiff r g b) 6
  else if rgbMax r g b = g / 255 then (b / 255 - r / 255) / rgbDiff r g b + 2
  else (r / 255 - g / 255) / rgbDiff r g b + 4

/-- The unrounded unit saturation `s` computed by `rgbToHsv`. -/
def sat0 (r g b : ℚ) : ℚ :=
  if rgbMax r g b = 0 then 0 else rgbDiff r g b / rgbMax r g b

theorem rgbToHsv_decomp (r g b : ℚ) :
    rgbToHsv r g b =
      ((if jsRound (hue0 r g b * 60) < 0 then jsRound (hue0 r g b * 60) + 360
        else jsRound (hue0 r g b * 60)),
       jsRound (sat0 r g b * 255), jsRound (rgbMax r g b * 255)) := rfl

/-- Exact inversion in the `max = r` branch: at the unrounded hue and
saturation, the reference inverse reproduces the three channels exactly. -/
theorem exact_branch_r (r g b : ℚ) (h0r : 0 ≤ r) (h0g : 0 ≤ g) (h0b : 0 ≤ b)
    (hd : rgbDiff r g b ≠ 0) (hmr : rgbMax r g b = r / 255) :
    255 * rgbMax r g b - 255 * rgbMax r g b * sat0 r g b *
      hueWave (5 + (g / 255 - b / 255) / rgbDiff r g b) = r ∧
    255 * rgbMax r g b - 255 * rgbMax r g b * sat0 r g b *
      hueWave (3 + (g / 255 - b / 255) / rgbDiff r g b) = g ∧
    255 * rgbMax r g b - 255 * rgbMax r g b * sat0 r g b *
      hueWave (1 + (g / 255 - b / 255) / rgbDiff r g b) = b := by
  set t := (g / 255 - b / 255) / rgbDiff r g b with ht
  have hgle : g / 255 ≤ rgbMax r g b :=
    le_trans (le_max_left _ _) (le_max_right _ _)
  have hble : b / 255 ≤ rgbMax r g b :=
    le_trans (le_max_right _ _) (le_max_right _ _)
  have hmng : rgbMin r g b ≤ g / 255 :=
    le_trans (min_le_right _ _) (min_le_left _ _)
  have hmnb : rgbMin r g b ≤ b / 255 :=
    le_trans (min_le_right _ _) (min_le_right _ _)
  have hmn0 : 0 ≤ rgbMin r g b :=
    le_min (by positivity) (le_min (by positivity) (by positivity))
  have hdiff0 : 0 ≤ rgbDiff r g b := by
    unfold rgbDiff
    linarith [le_trans hmng hgle]
  have dpos : 0 < rgbDiff r g b := lt_of_le_of_ne hdiff0 (Ne.symm hd)
  have mxpos : 0 < rgbMax r g b := by
    have : rgbDiff r g b = rgbMax r g b - rgbMin r g b := rfl
    linarith
  have hMs : 255 * rgbMax r g b * sat0 r g b = 255 * rgbDiff r g b := by
    unfold sat0
    rw [if_neg (ne_of_gt mxpos)]
    field_simp
    ring
  have hDt : 255 * rgbDiff r g b * t = g - b := by
    rw [ht]
    field_simp
  have ht1 : t ≤ 1 := by
    rw [ht, div_le_one dpos]
    unfold rgbDiff
    linarith
  have ht2 : -1 ≤ t := by
    rw [ht, le_div_iff dpos]
    unfold rgbDiff
    linarith
  have hmd : 255 * rgbMax r g b - 255 * rgbDiff r g b = 255 * rgbMin r g b := by
    unfold rgbDiff
    ring
  have hwR : hueWave (5 + t) = 0 := by
    unfold hueWave
    rcases lt_or_le (5 + t) 6 with h6 | h6
    · rw [mod6_eq_self (by linarith) h6]
      exact triWave_eq_zero (Or.inr (by linarith))
    · rw [mod6_eq_sub h6 (by linarith)]
      exact triWave_eq_zero (Or.inl (by linarith))
  refine ⟨?_, ?_, ?_⟩
  · rw [hwR, hmr]
    ring
  · rcases le_or_lt (b / 255) (g / 255) with hgb | hgb
    · have hmn : rgbMin r g b = b / 255 := by
        unfold rgbMin
        rw [min_eq_right hgb, min_eq_right (hmr ▸ hble)]
      have ht0 : 0 ≤ t := by
        rw [ht]
        exact div_nonneg (by linarith) (le_of_lt dpos)
      have hw : hueWave (3 + t) = 1 - t := by
        unfold hueWave
        rw [mod6_eq_self (by linarith) (by linarith),
          triWave_eq_down (by linarith) (by linarith)]
        ring
      rw [hw]
      linear_combination (t - 1) * hMs + hDt + hmd + 255 * hmn
    · have hmn : rgbMin r g b = g / 255 := by
        unfold rgbMin
        rw [min_eq_left (le_of_lt hgb), min_eq_right (hmr ▸ hgle)]
      have htneg : t < 0 := by
        rw [ht]
        exact div_neg_of_neg_of_pos (by linarith) dpos
      have hw : hueWave (3 + t) = 1 := by
        unfold hueWave
        rw [mod6_eq_self (by linarith) (by linarith)]
        exact triWave_eq_one (by linarith) (by linarith)
      rw [hw]
      linear_combination (-1 : ℚ) * hMs + hmd + 255 * hmn
  · rcases le_or_lt (b / 255) (g / 255) with hgb | hgb
    · have hmn : rgbMin r g b = b / 255 := by
        unfold rgbMin
        rw [min_eq_right hgb, min_eq_right (hmr ▸ hble)]
      have ht0 : 0 ≤ t := by
        rw [ht]
        exact div_nonneg (by linarith) (le_of_lt dpos)
      have hw : hueWave (1 + t) = 1 := by
        unfold hueWave
        rw [mod6_eq_self (by linarith) (by linarith)]
        exact triWave_eq_one (by linarith) (by linarith)
      rw [hw]
      linear_combination (-1 : ℚ) * hMs + hmd + 255 * hmn
    · have hmn : rgbMin r g b = g / 255 := by
        unfold rgbMin
        rw [min_eq_left (le_of_lt hgb), min_eq_right (hmr ▸ hgle)]
      have htneg : t < 0 := by
        rw [ht]
        exact div_neg_of_neg_of_pos (by linarith) dpos
      have hw : hueWave (1 + t) = 1 + t := by
        unfold hueWave
        rw [mod6_eq_self (by linarith) (by linarith)]
        exact triWave_eq_ramp (by linarith) (by linarith)
      rw [hw]
      linear_combination (-1 - t) * hMs + (-1 : ℚ) * hDt + hmd + 255 * hmn

/-- Exact inversion in the `max = g` branch. -/
theorem exact_branch_g (r g b : ℚ) (h0r : 0 ≤ r) (h0g : 0 ≤ g) (h0b : 0 ≤ b)
    (hd : rgbDiff r g b ≠ 0) (hmg : rgbMax r g b = g / 255) :
    255 * rgbMax r g b - 255 * rgbMax r g b * sat0 r g b *
      hueWave (5 + ((b / 255 - r / 255) / rgbDiff r g b + 2)) = r ∧
    255 * rgbMax r g b - 255 * rgbMax r g b * sat0 r g b *
      hueWave (3 + ((b / 255 - r / 255) / rgbDiff r g b + 2)) = g ∧
    255 * rgbMax r g b - 255 * rgbMax r g b * sat0 r g b *
      hueWave (1 + ((b / 255 - r / 255) / rgbDiff r g b + 2)) = b := by
  set u := (b / 255 - r / 255) / rgbDiff r g b with hu
  have hrle : r / 255 ≤ rgbMax r g b := le_max_left _ _
  have hble : b / 255 ≤ rgbMax r g b :=
    le_trans (le_max_right _ _) (le_max_right _ _)
  have hmnr : rgbMin r g b ≤ r / 255 := min_le_left _ _
  have hmnb : rgbMin r g b ≤ b / 255 :=
    le_trans (min_le_right _ _) (min_le_right _ _)
  have hmn0 : 0 ≤ rgbMin r g b :=
    le_min (by positivity) (le_min (by positivity) (by positivity))
  have hdiff0 : 0 ≤ rgbDiff r g b := by
    unfold rgbDiff
    linarith [le_trans hmnr hrle]
  have dpos : 0 < rgbDiff r g b := lt_of_le_of_ne hdiff0 (Ne.symm hd)
  have mxpos : 0 < rgbMax r g b := by
    have : rgbDiff r g b = rgbMax r g b - rgbMin r g b := rfl
    linarith
  have hMs : 255 * rgbMax r g b * sat0 r g b = 255 * rgbDiff r g b := by
    unfold sat0
    rw [if_neg (ne_of_gt mxpos)]
    field_simp
    ring
  have hDu : 255 * rgbDiff r g b * u = b - r := by
    rw [hu]
    field_simp
  have hu1 : u ≤ 1 := by
    rw [hu, div_le_one dpos]
    unfold rgbDiff
    linarith
  have hu2 : -1 ≤ u := by
    rw [hu, le_div_iff dpos]
    unfold rgbDiff
    linarith
  have hmd : 255 * rgbMax r g b - 255 * rgbDiff r g b = 255 * rgbMin r g b := by
    unfold rgbDiff
    ring
  have hble2 : b / 255 ≤ g / 255 := by
    rw [← hmg]
    exact hble
  have hrle2 : r / 255 ≤ g / 255 := by
    rw [← hmg]
    exact hrle
  have ha5 : (5 : ℚ) + (u + 2) = 7 + u := by ring
  have ha3 : (3 : ℚ) + (u + 2) = 5 + u := by ring
  have ha1 : (1 : ℚ) + (u + 2) = 3 + u := by ring
  have hwG : hueWave (5 + u) = 0 := by
    unfold hueWave
    rcases lt_or_le (5 + u) 6 with h6 | h6
    · rw [mod6_eq_self (by linarith) h6]
      exact triWave_eq_zero (Or.inr (by linarith))
    · rw [mod6_eq_sub h6 (by linarith)]
      exact triWave_eq_zero (Or.inl (by linarith))
  refine ⟨?_, ?_, ?_⟩
  · rw [ha5]
    rcases le_or_lt (b / 255) (r / 255) with hbr | hbr
    · have hu0 : u ≤ 0 := by
        rw [hu, div_le_iff dpos]
        linarith
      have hmn : rgbMin r g b = b / 255 := by
        unfold rgbMin
        rw [min_eq_right hble2, min_eq_right hbr]
      have hw : hueWave (7 + u) = 1 + u := by
        unfold hueWave
        rw [mod6_eq_sub (by linarith) (by linarith)]
        have e : (7 : ℚ) + u - 6 = 1 + u := by ring
        rw [e]
        exact triWave_eq_ramp (by linarith) (by linarith)
      rw [hw]
      linear_combination (-1 - u) * hMs + (-1 : ℚ) * hDu + hmd + 255 * hmn
    · have hu0 : 0 < u := div_pos (by linarith) dpos
      have hmn : rgbMin r g b = r / 255 := by
        unfold rgbMin
        rw [min_eq_left (le_min hrle2 (le_of_lt hbr))]
      have hw : hueWave (7 + u) = 1 := by
        unfold hueWave
        rw [mod6_eq_sub (by linarith) (by linarith)]
        have e : (7 : ℚ) + u - 6 = 1 + u := by ring
        rw [e]
        exact triWave_eq_one (by linarith) (by linarith)
      rw [hw]
      linear_combination (-1 : ℚ) * hMs + hmd + 255 * hmn
  · rw [ha3, hwG, hmg]
    ring
  · rw [ha1]
    rcases le_or_lt (b / 255) (r / 255) with hbr | hbr
    · have hu0 : u ≤ 0 := by
        rw [hu, div_le_iff dpos]
        linarith
      have hmn : rgbMin r g b = b / 255 := by
        unfold rgbMin
        rw [min_eq_right hble2, min_eq_right hbr]
      have hw : hueWave (3 + u) = 1 := by
        unfold hueWave
        rw [mod6_eq_self (by linarith) (by linarith)]
        exact triWave_eq_one (by linarith) (by linarith)
      rw [hw]
      linear_combination (-1 : ℚ) * hMs + hmd + 255 * hmn
    · have hu0 : 0 < u := div_pos (by linarith) dpos
      have hmn : rgbMin r g b = r / 255 := by
        unfold rgbMin
        rw [min_eq_left (le_min hrle2 (le_of_lt hbr))]
      have hw : hueWave (3 + u) = 1 - u := by
        unfold hueWave
        rw [mod6_eq_self (by linarith) (by linarith),
          triWave_eq_down (by linarith) (by linarith)]
        ring
      rw [hw]
      linear_combination (u - 1) * hMs + hDu + hmd + 255 * hmn

/-- Exact inversion in the final (`max = b`) branch. -/
theorem exact_branch_b (r g b : ℚ) (h0r : 0 ≤ r) (h0g : 0 ≤ g) (h0b : 0 ≤ b)
    (hd : rgbDiff r g b ≠ 0) (hmb : rgbMax r g b = b / 255) :
    255 * rgbMax r g b - 255 * rgbMax r g b * sat0 r g b *
      hueWave (5 + ((r / 255 - g / 255) / rgbDiff r g b + 4)) = r ∧
    255 * rgbMax r g b - 255 * rgbMax r g b * sat0 r g b *
      hueWave (3 + ((r / 255 - g / 255) / rgbDiff r g b + 4)) = g ∧
    255 * rgbMax r g b - 255 * rgbMax r g b * sat0 r g b *
      hueWave (1 + ((r / 255 - g / 255) / rgbDiff r g b + 4)) = b := by
  set w := (r / 255 - g / 255) / rgbDiff r g b with hw0
  have hrle : r / 255 ≤ rgbMax r g b := le_max_left _ _
  have hgle : g / 255 ≤ rgbMax r g b :=
    le_trans (le_max_left _ _) (le_max_right _ _)
  have hmnr : rgbMin r g b ≤ r / 255 := min_le_left _ _
  have hmng : rgbMin r g b ≤ g / 255 :=
    le_trans (min_le_right _ _) (min_le_left _ _)
  have hmn0 : 0 ≤ rgbMin r g b :=
    le_min (by positivity) (le_min (by positivity) (by positivity))
  have hdiff0 : 0 ≤ rgbDiff r g b := by
    unfold rgbDiff
    linarith [le_trans hmnr hrle]
  have dpos : 0 < rgbDiff r g b := lt_of_le_of_ne hdiff0 (Ne.symm hd)
  have mxpos : 0 < rgbMax r g b := by
    have : rgbDiff r g b = rgbMax r g b - rgbMin r g b := rfl
    linarith
  have hMs : 255 * rgbMax r g b * sat0 r g b = 255 * rgbDiff r g b := by
    unfold sat0
    rw [if_neg (ne_of_gt mxpos)]
    field_simp
    ring
  have hDw : 255 * rgbDiff r g b * w = r - g := by
    rw [hw0]
    field_simp
  have hw1 : w ≤ 1 := by
    rw [hw0, div_le_one dpos]
    unfold rgbDiff
    linarith
  have hw2 : -1 ≤ w := by
    rw [hw0, le_div_iff dpos]
    unfold rgbDiff
    linarith
  have hmd : 255 * rgbMax r g b - 255 * rgbDiff r g b = 255 * rgbMin r g b := by
    unfold rgbDiff
    ring
  have hrle2 : r / 255 ≤ b / 255 := by
    rw [← hmb]
    exact hrle
  have hgle2 : g / 255 ≤ b / 255 := by
    rw [← hmb]
    exact hgle
  have ha5 : (5 : ℚ) + (w + 4) = 9 + w := by ring
  have ha3 : (3 : ℚ) + (w + 4) = 7 + w := by ring
  have ha1 : (1 : ℚ) + (w + 4) = 5 + w := by ring
  have hwB : hueWave (5 + w) = 0 := by
    unfold hueWave
    rcases lt_or_le (5 + w) 6 with h6 | h6
    · rw [mod6_eq_self (by linarith) h6]
      exact triWave_eq_zero (Or.inr (by linarith))
    · rw [mod6_eq_sub h6 (by linarith)]
      exact triWave_eq_zero (Or.inl (by linarith))
  refine ⟨?_, ?_, ?_⟩
  · rw [ha5]
    rcases le_or_lt (r / 255) (g / 255) with hrg | hrg
    · have hw0' : w ≤ 0 := by
        rw [hw0, div_le_iff dpos]
        linarith
      have hmn : rgbMin r g b = r / 255 := by
        unfold rgbMin
        rw [min_eq_left (le_min hrg hrle2)]
      have hwv : hueWave (9 + w) = 1 := by
        unfold hueWave
        rw [mod6_eq_sub (by linarith) (by linarith)]
        have e : (9 : ℚ) + w - 6 = 3 + w := by ring
        rw [e]
        exact triWave_eq_one (by linarith) (by linarith)
      rw [hwv]
      linear_combination (-1 : ℚ) * hMs + hmd + 255 * hmn
    · have hw0' : 0 < w := div_pos (by linarith) dpos
      have hmn : rgbMin r g b = g / 255 := by
        unfold rgbMin
        rw [min_eq_left hgle2, min_eq_right (le_of_lt hrg)]
      have hwv : hueWave (9 + w) = 1 - w := by
        unfold hueWave
        rw [mod6_eq_sub (by linarith) (by linarith)]
        have e : (9 : ℚ) + w - 6 = 3 + w := by ring
        rw [e, triWave_eq_down (by linarith) (by linarith)]
        ring
      rw [hwv]
      linear_combination (w - 1) * hMs + hDw + hmd + 255 * hmn
  · rw [ha3]
    rcases le_or_lt (r / 255) (g / 255) with hrg | hrg
    · have hw0' : w ≤ 0 := by
        rw [hw0, div_le_iff dpos]
        linarith
      have hmn : rgbMin r g b = r / 255 := by
        unfold rgbMin
        rw [min_eq_left (le_min hrg hrle2)]
      have hwv : hueWave (7 + w) = 1 + w := by
        unfold hueWave
        rw [mod6_eq_sub (by linarith) (by linarith)]
        have e : (7 : ℚ) + w - 6 = 1 + w := by ring
        rw [e]
        exact triWave_eq_ramp (by linarith) (by linarith)
      rw [hwv]
      linear_combination (-1 - w) * hMs + (-1 : ℚ) * hDw + hmd + 255 * hmn
    · have hw0' : 0 < w := div_pos (by linarith) dpos
      have hmn : rgbMin r g b = g / 255 := by
        unfold rgbMin
        rw [min_eq_left hgle2, min_eq_right (le_of_lt hrg)]
      have hwv : hueWave (7 + w) = 1 := by
        unfold hueWave
        rw [mod6_eq_sub (by linarith) (by linarith)]
        have e : (7 : ℚ) + w - 6 = 1 + w := by ring
        rw [e]
        exact triWave_eq_one (by linarith) (by linarith)
      rw [hwv]
      linear_combination (-1 : ℚ) * hMs + hmd + 255 * hmn
  · rw [ha1, hwB, hmb]
    ring

theorem jsRound_zero : jsRound 0 = 0 := by
  simpa using jsRound_natCast 0

set_option maxHeartbeats 1000000 in
/-- C8 (amended): converting any 8-bit RGB triple to HSV with `rgbToHsv` and
back with the standard inverse reproduces each channel to within ±21/8
(= ±2.625). The spec's claimed ±2 bound fails (see the counterexample at
(255, 38, 7), where the green channel moves by 31/15 ≈ 2.067). -/
theorem rgbToHsv_roundTrip (r g b : ℕ) (hr : r ≤ 255) (hg : g ≤ 255) (hb : b ≤ 255) :
    |(hsvToRgbRef ((rgbToHsv r g b).1 : ℚ) ((rgbToHsv r g b).2.1 : ℚ)
        ((rgbToHsv r g b).2.2 : ℚ)).1 - r| ≤ 21/8 ∧
    |(hsvToRgbRef ((rgbToHsv r g b).1 : ℚ) ((rgbToHsv r g b).2.1 : ℚ)
        ((rgbToHsv r g b).2.2 : ℚ)).2.1 - g| ≤ 21/8 ∧
    |(hsvToRgbRef ((rgbToHsv r g b).1 : ℚ) ((rgbToHsv r g b).2.1 : ℚ)
        ((rgbToHsv r g b).2.2 : ℚ)).2.2 - b| ≤ 21/8 := by
  have hM0 : (0 : ℚ) ≤ ((max r (max g b) : ℕ) : ℚ) := by positivity
  have hM255 : ((max r (max g b) : ℕ) : ℚ) ≤ 255 := by
    have h' : max r (max g b) ≤ 255 := max_le hr (max_le hg hb)
    exact_mod_cast h'
  have hMv : rgbMax (r : ℚ) (g : ℚ) (b : ℚ) * 255 = ((max r (max g b) : ℕ) : ℚ) := by
    have hcast : ((max r (max g b) : ℕ) : ℚ) = max (r : ℚ) (max (g : ℚ) (b : ℚ)) := by
      push_cast
      rfl
    rw [hcast]
    unfold rgbMax
    rw [max_div_div_right (by norm_num : (0:ℚ) ≤ 255),
      max_div_div_right (by norm_num : (0:ℚ) ≤ 255)]
    field_simp
  rw [rgbToHsv_decomp]
  unfold hsvToRgbRef
  dsimp only
  set h1z := jsRound (hue0 (r : ℚ) (g : ℚ) (b : ℚ) * 60) with hh1z
  set st := jsRound (sat0 (r : ℚ) (g : ℚ) (b : ℚ) * 255) with hst
  set vt := jsRound (rgbMax (r : ℚ) (g : ℚ) (b : ℚ) * 255) with hvt
  have hvtv : vt = ((max r (max g b) : ℕ) : ℤ) := by
    rw [hvt, hMv]
    exact jsRound_natCast _
  have hvtQ : ((vt : ℤ) : ℚ) = ((max r (max g b) : ℕ) : ℚ) := by
    rw [hvtv]
    push_cast
    rfl
  have hcomp : ∀ H S n : ℚ, 255 * hsvComp H S (vt : ℚ) n =
      ((max r (max g b) : ℕ) : ℚ) -
        ((max r (max g b) : ℕ) : ℚ) * (S / 255) * hueWave (n + H / 60) := by
    intro H S n
    unfold hsvComp
    rw [hvtQ]
    ring
  by_cases hd : rgbDiff (r : ℚ) (g : ℚ) (b : ℚ) = 0
  · have hminmax : rgbMin (r : ℚ) (g : ℚ) (b : ℚ) = rgbMax (r : ℚ) (g : ℚ) (b : ℚ) := by
      have hdd : rgbDiff (r : ℚ) (g : ℚ) (b : ℚ) =
          rgbMax (r : ℚ) (g : ℚ) (b : ℚ) - rgbMin (r : ℚ) (g : ℚ) (b : ℚ) := rfl
      rw [hdd] at hd
      linarith
    have hrmax : (r : ℚ) / 255 = rgbMax (r : ℚ) (g : ℚ) (b : ℚ) :=
      le_antisymm (le_max_left _ _) (by rw [← hminmax]; exact min_le_left _ _)
    have hgmax : (g : ℚ) / 255 = rgbMax (r : ℚ) (g : ℚ) (b : ℚ) :=
      le_antisymm (le_trans (le_max_left _ _) (le_max_right _ _))
        (by rw [← hminmax]; exact le_trans (min_le_right _ _) (min_le_left _ _))
    have hbmax : (b : ℚ) / 255 = rgbMax (r : ℚ) (g : ℚ) (b : ℚ) :=
      le_antisymm (le_trans (le_max_right _ _) (le_max_right _ _))
        (by rw [← hminmax]; exact le_trans (min_le_right _ _) (min_le_right _ _))
    have hrg2 : (r : ℚ) = (g : ℚ) := by
      have h' := hrmax.trans hgmax.symm
      linarith
    have hrb2 : (r : ℚ) = (b : ℚ) := by
      have h' := hrmax.trans hbmax.symm
      linarith
    have hhue0 : hue0 (r : ℚ) (g : ℚ) (b : ℚ) = 0 := by
      unfold hue0
      rw [if_pos hd]
    have hsat0e : sat0 (r : ℚ) (g : ℚ) (b : ℚ) = 0 := by
      unfold sat0
      by_cases hm0 : rgbMax (r : ℚ) (g : ℚ) (b : ℚ) = 0
      · rw [if_pos hm0]
      · rw [if_neg hm0, hd, zero_div]
    have hz : h1z = 0 := by
      rw [hh1z, hhue0, zero_mul, jsRound_zero]
    have hs0 : st = 0 := by
      rw [hst, hsat0e, zero_mul, jsRound_zero]
    have hvr : ((vt : ℤ) : ℚ) = (r : ℚ) := by
      rw [hvtQ, ← hMv, ← hrmax]
      ring
    rw [hz, hs0]
    have hifz : (if (0:ℤ) < 0 then (0:ℤ) + 360 else (0:ℤ)) = 0 := by norm_num
    rw [hifz]
    have hzero : ∀ n : ℚ, 255 * hsvComp ((0:ℤ) : ℚ) ((0:ℤ) : ℚ) ((vt : ℤ) : ℚ) n
        = (r : ℚ) := by
      intro n
      unfold hsvComp
      rw [hvr]
      push_cast
      ring
    refine ⟨?_, ?_, ?_⟩
    · rw [hzero]
      norm_num
    · rw [hzero, hrg2]
      norm_num
    · rw [hzero, hrb2]
      norm_num
  · have hdd : rgbDiff (r : ℚ) (g : ℚ) (b : ℚ) =
        rgbMax (r : ℚ) (g : ℚ) (b : ℚ) - rgbMin (r : ℚ) (g : ℚ) (b : ℚ) := rfl
    have hgle : (g : ℚ) / 255 ≤ rgbMax (r : ℚ) (g : ℚ) (b : ℚ) :=
      le_trans (le_max_left _ _) (le_max_right _ _)
    have hble : (b : ℚ) / 255 ≤ rgbMax (r : ℚ) (g : ℚ) (b : ℚ) :=
      le_trans (le_max_right _ _) (le_max_right _ _)
    have hmng : rgbMin (r : ℚ) (g : ℚ) (b : ℚ) ≤ (g : ℚ) / 255 :=
      le_trans (min_le_right _ _) (min_le_left _ _)
    have hmnb : rgbMin (r : ℚ) (g : ℚ) (b : ℚ) ≤ (b : ℚ) / 255 :=
      le_trans (min_le_right _ _) (min_le_right _ _)
    have hmn0 : 0 ≤ rgbMin (r : ℚ) (g : ℚ) (b : ℚ) :=
      le_min (by positivity) (le_min (by positivity) (by positivity))
    have hdiff0 : 0 ≤ rgbDiff (r : ℚ) (g : ℚ) (b : ℚ) := by
      rw [hdd]
      linarith [le_trans hmng hgle]
    have dpos : 0 < rgbDiff (r : ℚ) (g : ℚ) (b : ℚ) := lt_of_le_of_ne hdiff0 (Ne.symm hd)
    have mxpos : 0 < rgbMax (r : ℚ) (g : ℚ) (b : ℚ) := by
      rw [hdd] at dpos
      linarith
    have hsat : sat0 (r : ℚ) (g : ℚ) (b : ℚ) =
        rgbDiff (r : ℚ) (g : ℚ) (b : ℚ) / rgbMax (r : ℚ) (g : ℚ) (b : ℚ) := by
      unfold sat0
      rw [if_neg (ne_of_gt mxpos)]
    have hsat0 : 0 ≤ sat0 (r : ℚ) (g : ℚ) (b : ℚ) := by
      rw [hsat]
      exact div_nonneg hdiff0 (le_of_lt mxpos)
    have hsat1 : sat0 (r : ℚ) (g : ℚ) (b : ℚ) ≤ 1 := by
      rw [hsat, div_le_one mxpos, hdd]
      linarith
    have hstQ0 : (0 : ℚ) ≤ (st : ℚ) := by
      rw [hst]
      exact_mod_cast jsRound_nonneg (mul_nonneg hsat0 (by norm_num))
    have hstQ255 : (st : ℚ) ≤ 255 := by
      rw [hst]
      exact jsRound_le_of_le (by linarith) ⟨255, by norm_num⟩
    have hserr : |(st : ℚ) - 255 * sat0 (r : ℚ) (g : ℚ) (b : ℚ)| ≤ 1/2 := by
      rw [hst, mul_comm 255 (sat0 (r : ℚ) (g : ℚ) (b : ℚ))]
      exact abs_jsRound_sub_le _
    have hMq : ((max r (max g b) : ℕ) : ℚ) = 255 * rgbMax (r : ℚ) (g : ℚ) (b : ℚ) := by
      rw [← hMv]
      ring
    obtain ⟨hex5, hex3, hex1⟩ :
        ((max r (max g b) : ℕ) : ℚ) - ((max r (max g b) : ℕ) : ℚ) *
            sat0 (r : ℚ) (g : ℚ) (b : ℚ) *
            hueWave (5 + hue0 (r : ℚ) (g : ℚ) (b : ℚ)) = (r : ℚ) ∧
        ((max r (max g b) : ℕ) : ℚ) - ((max r (max g b) : ℕ) : ℚ) *
            sat0 (r : ℚ) (g : ℚ) (b : ℚ) *
            hueWave (3 + hue0 (r : ℚ) (g : ℚ) (b : ℚ)) = (g : ℚ) ∧
        ((max r (max g b) : ℕ) : ℚ) - ((max r (max g b) : ℕ) : ℚ) *
            sat0 (r : ℚ) (g : ℚ) (b : ℚ) *
            hueWave (1 + hue0 (r : ℚ) (g : ℚ) (b : ℚ)) = (b : ℚ) := by
      rw [hMq]
      by_cases hmr : rgbMax (r : ℚ) (g : ℚ) (b : ℚ) = (r : ℚ) / 255
      · have htlt : |((g : ℚ) / 255 - (b : ℚ) / 255) / rgbDiff (r : ℚ) (g : ℚ) (b : ℚ)| < 6 := by
          rw [abs_lt]
          constructor
          · rw [lt_div_iff dpos]
            linarith [hdd, hmng, hble, dpos]
          · rw [div_lt_iff dpos]
            linarith [hdd, hgle, hmnb, dpos]
        have hhue : hue0 (r : ℚ) (g : ℚ) (b : ℚ) =
            ((g : ℚ) / 255 - (b : ℚ) / 255) / rgbDiff (r : ℚ) (g : ℚ) (b : ℚ) := by
          unfold hue0
          rw [if_neg hd, if_pos hmr]
          exact jsRem_six_self htlt
        rw [hhue]
        exact exact_branch_r _ _ _ (by positivity) (by positivity) (by positivity) hd hmr
      · by_cases hmg : rgbMax (r : ℚ) (g : ℚ) (b : ℚ) = (g : ℚ) / 255
        · have hhue : hue0 (r : ℚ) (g : ℚ) (b : ℚ) =
              ((b : ℚ) / 255 - (r : ℚ) / 255) / rgbDiff (r : ℚ) (g : ℚ) (b : ℚ) + 2 := by
            unfold hue0
            rw [if_neg hd, if_neg hmr, if_pos hmg]
          rw [hhue]
          exact exact_branch_g _ _ _ (by positivity) (by positivity) (by positivity) hd hmg
        · have hmb : rgbMax (r : ℚ) (g : ℚ) (b : ℚ) = (b : ℚ) / 255 := by
            rcases max_choice ((r : ℚ) / 255) (max ((g : ℚ) / 255) ((b : ℚ) / 255)) with h | h
            · exact absurd h hmr
            · rcases max_choice ((g : ℚ) / 255) ((b : ℚ) / 255) with h2 | h2
              · have h3 : rgbMax (r : ℚ) (g : ℚ) (b : ℚ) = (g : ℚ) / 255 := by
                  unfold rgbMax
                  rw [h, h2]
                exact absurd h3 hmg
              · unfold rgbMax
                rw [h, h2]
          have hhue : hue0 (r : ℚ) (g : ℚ) (b : ℚ) =
              ((r : ℚ) / 255 - (g : ℚ) / 255) / rgbDiff (r : ℚ) (g : ℚ) (b : ℚ) + 4 := by
            unfold hue0
            rw [if_neg hd, if_neg hmr, if_neg hmg]
          rw [hhue]
          exact exact_branch_b _ _ _ (by positivity) (by positivity) (by positivity) hd hmb
    rcases lt_or_ge h1z 0 with hneg | hposz
    · rw [if_pos hneg]
      have hherr : |((h1z + 360 : ℤ) : ℚ) - (hue0 (r : ℚ) (g : ℚ) (b : ℚ) * 60 + 360)| ≤ 1/2 := by
        have e : ((h1z + 360 : ℤ) : ℚ) - (hue0 (r : ℚ) (g : ℚ) (b : ℚ) * 60 + 360)
            = ((h1z : ℤ) : ℚ) - hue0 (r : ℚ) (g : ℚ) (b : ℚ) * 60 := by
          push_cast
          ring
        rw [e, hh1z]
        exact abs_jsRound_sub_le _
      have hwrap : ∀ n : ℚ, hueWave (n + (hue0 (r : ℚ) (g : ℚ) (b : ℚ) * 60 + 360) / 60) =
          hueWave (n + hue0 (r : ℚ) (g : ℚ) (b : ℚ)) := by
        intro n
        have e : n + (hue0 (r : ℚ) (g : ℚ) (b : ℚ) * 60 + 360) / 60
            = n + hue0 (r : ℚ) (g : ℚ) (b : ℚ) + 6 := by ring
        rw [e, hueWave_add_six]
      refine ⟨?_, ?_, ?_⟩
      · rw [hcomp]
        exact channel_error_bound _ _ (sat0 (r : ℚ) (g : ℚ) (b : ℚ)) _
          (hue0 (r : ℚ) (g : ℚ) (b : ℚ) * 60 + 360) _ _ hM0 hM255 hstQ0 hstQ255
          hserr hherr (by rw [hwrap]; exact hex5)
      · rw [hcomp]
        exact channel_error_bound _ _ (sat0 (r : ℚ) (g : ℚ) (b : ℚ)) _
          (hue0 (r : ℚ) (g : ℚ) (b : ℚ) * 60 + 360) _ _ hM0 hM255 hstQ0 hstQ255
          hserr hherr (by rw [hwrap]; exact hex3)
      · rw [hcomp]
        exact channel_error_bound _ _ (sat0 (r : ℚ) (g : ℚ) (b : ℚ)) _
          (hue0 (r : ℚ) (g : ℚ) (b : ℚ) * 60 + 360) _ _ hM0 hM255 hstQ0 hstQ255
          hserr hherr (by rw [hwrap]; exact hex1)
    · rw [if_neg (not_lt.mpr hposz)]
      have hherr : |((h1z : ℤ) : ℚ) - hue0 (r : ℚ) (g : ℚ) (b : ℚ) * 60| ≤ 1/2 := by
        rw [hh1z]
        exact abs_jsRound_sub_le _
      have hwrap : ∀ n : ℚ, hueWave (n + hue0 (r : ℚ) (g : ℚ) (b : ℚ) * 60 / 60) =
          hueWave (n + hue0 (r : ℚ) (g : ℚ) (b : ℚ)) := by
        intro n
        have e : n + hue0 (r : ℚ) (g : ℚ) (b : ℚ) * 60 / 60
            = n + hue0 (r : ℚ) (g : ℚ) (b : ℚ) := by ring
        rw [e]
      refine ⟨?_, ?_, ?_⟩
      · rw [hcomp]
        exact channel_error_bound _ _ (sat0 (r : ℚ) (g : ℚ) (b : ℚ)) _
          (hue0 (r : ℚ) (g : ℚ) (b : ℚ) * 60) _ _ hM0 hM255 hstQ0 hstQ255
          hserr hherr (by rw [hwrap]; exact hex5)
      · rw [hcomp]
        exact channel_error_bound _ _ (sat0 (r : ℚ) (g : ℚ) (b : ℚ)) _
          (hue0 (r : ℚ) (g : ℚ) (b : ℚ) * 60) _ _ hM0 hM255 hstQ0 hstQ255
          hserr hherr (by rw [hwrap]; exact hex3)
      · rw [hcomp]
        exact channel_error_bound _ _ (sat0 (r : ℚ) (g : ℚ) (b : ℚ)) _
          (hue0 (r : ℚ) (g : ℚ) (b : ℚ) * 60) _ _ hM0 hM255 hstQ0 hstQ255
          hserr hherr (by rw [hwrap]; exact hex1)

/-- Witness for `rgbToHsv_roundTrip` at the concrete input (255, 38, 7). -/
theorem rgbToHsv_roundTrip_witness :
    (255 : ℕ) ≤ 255 ∧ (38 : ℕ) ≤ 255 ∧ (7 : ℕ) ≤ 255 ∧
    (|(hsvToRgbRef ((rgbToHsv ((255 : ℕ) : ℚ) ((38 : ℕ) : ℚ) ((7 : ℕ) : ℚ)).1 : ℚ)
        ((rgbToHsv ((255 : ℕ) : ℚ) ((38 : ℕ) : ℚ) ((7 : ℕ) : ℚ)).2.1 : ℚ)
        ((rgbToHsv ((255 : ℕ) : ℚ) ((38 : ℕ) : ℚ) ((7 : ℕ) : ℚ)).2.2 : ℚ)).1
          - ((255 : ℕ) : ℚ)| ≤ 21/8 ∧
     |(hsvToRgbRef ((rgbToHsv ((255 : ℕ) : ℚ) ((38 : ℕ) : ℚ) ((7 : ℕ) : ℚ)).1 : ℚ)
        ((rgbToHsv ((255 : ℕ) : ℚ) ((38 : ℕ) : ℚ) ((7 : ℕ) : ℚ)).2.1 : ℚ)
        ((rgbToHsv ((255 : ℕ) : ℚ) ((38 : ℕ) : ℚ) ((7 : ℕ) : ℚ)).2.2 : ℚ)).2.1
          - ((38 : ℕ) : ℚ)| ≤ 21/8 ∧
     |(hsvToRgbRef ((rgbToHsv ((255 : ℕ) : ℚ) ((38 : ℕ) : ℚ) ((7 : ℕ) : ℚ)).1 : ℚ)
        ((rgbToHsv ((255 : ℕ) : ℚ) ((38 : ℕ) : ℚ) ((7 : ℕ) : ℚ)).2.1 : ℚ)
        ((rgbToHsv ((255 : ℕ) : ℚ) ((38 : ℕ) : ℚ) ((7 : ℕ) : ℚ)).2.2 : ℚ)).2.2
          - ((7 : ℕ) : ℚ)| ≤ 21/8) :=
  ⟨by decide, by decide, by decide,
   rgbToHsv_roundTrip 255 38 7 (by decide) (by decide) (by decide)⟩

end FaceStudio
